import Mathlib

/-!
Shallow embedding of `crates/bevy_render/macros/src/as_bind_group.rs`.

The source is a compile-time resolver (a derive macro): it scans struct-level
and field-level binding attributes, maintains a slot-occupancy table
(`BindingState`), and emits three parallel lists of generated artifacts —
resource-construction expressions (`binding_impls`), bind-group entries
(`bind_group_entries`) and layout entries (`binding_layouts`) — plus
synthesized intermediate uniform structs.  Emitted token streams are embedded
as symbolic syntax values; the runtime behaviour of the emitted
texture/sampler construction expressions is embedded separately as an
executable function over an image registry.
-/

namespace BindGroupDerive

/-- Decidable equality for `Except`, used to evaluate the embedded resolver on
concrete inputs. -/
instance {ε α : Type _} [DecidableEq ε] [DecidableEq α] : DecidableEq (Except ε α)
  | .error a, .error b => decidable_of_iff (a = b) (by simp)
  | .error _, .ok _ => isFalse (fun h => Except.noConfusion h)
  | .ok _, .error _ => isFalse (fun h => Except.noConfusion h)
  | .ok a, .ok b => decidable_of_iff (a = b) (by simp)

/-- Mirrors enum `BindingType` in the source. -/
inductive BindingType where
  | Uniform
  | Texture
  | Sampler
deriving DecidableEq, Repr

/-- Mirrors enum `BindingTextureDimension`; the source marks `D2` as the
`#[default]` variant. -/
inductive BindingTextureDimension where
  | D1
  | D2
  | D2Array
  | Cube
  | CubeArray
  | D3
deriving DecidableEq, Repr

instance : Inhabited BindingTextureDimension :=
  ⟨BindingTextureDimension.D2⟩

/-- Mirrors enum `BindingTextureSampleType`. -/
inductive BindingTextureSampleType where
  | Float (filterable : Bool)
  | Depth
  | Sint
  | Uint
deriving DecidableEq, Repr

/-- Mirrors `impl Default for BindingTextureSampleType`: `Float { filterable: true }`. -/
instance : Inhabited BindingTextureSampleType :=
  ⟨BindingTextureSampleType.Float true⟩

/-- Mirrors struct `TextureAttrs` in the source. -/
structure TextureAttrs where
  dimension : BindingTextureDimension
  sample_type : BindingTextureSampleType
  multisampled : Bool
deriving DecidableEq, Repr

/-- Mirrors `impl Default for TextureAttrs`: dimension and sample type take
their own type-level defaults and `multisampled` is explicitly `true`. -/
instance : Inhabited TextureAttrs :=
  ⟨{ dimension := default, sample_type := default, multisampled := true }⟩

/-- Mirrors enum `SamplerBindingType`; `Filtering` is the `#[default]` variant. -/
inductive SamplerBindingType where
  | Filtering
  | NonFiltering
  | Comparison
deriving DecidableEq, Repr

instance : Inhabited SamplerBindingType :=
  ⟨SamplerBindingType.Filtering⟩

/-- Mirrors struct `SamplerAttrs`. -/
structure SamplerAttrs where
  sampler_binding_type : SamplerBindingType
deriving DecidableEq, Repr

/-- Parsed literal tokens, the output of `syn`-level literal parsing consumed
by the source (string, boolean and integer literals). -/
inductive Lit where
  | str (s : String)
  | boolean (b : Bool)
  | int (n : Nat)
deriving DecidableEq, Repr

/-- Mirrors `syn::NestedMeta` as consumed by the source: a bare literal, a
name/value pair, or any other meta shape. -/
inductive NestedMeta where
  | lit (l : Lit)
  | nameValue (name : String) (l : Lit)
  | otherMeta
deriving DecidableEq, Repr

/-- Mirrors `bevy_macro_utils::get_lit_str`: succeeds only on string literals. -/
def get_lit_str (attr_name : String) (l : Lit) : Except String String :=
  match l with
  | .str s => .ok s
  | _ => .error ("expected " ++ attr_name ++ " attribute to be a string")

/-- Mirrors `bevy_macro_utils::get_lit_bool`: succeeds only on bool literals. -/
def get_lit_bool (attr_name : String) (l : Lit) : Except String Bool :=
  match l with
  | .boolean b => .ok b
  | _ => .error ("expected " ++ attr_name ++ " attribute to be a bool")

/-- Mirrors `get_texture_dimension_value`. -/
def get_texture_dimension_value (s : String) : Except String BindingTextureDimension :=
  if s = "1d" then .ok .D1
  else if s = "2d" then .ok .D2
  else if s = "2d_array" then .ok .D2Array
  else if s = "3d" then .ok .D3
  else if s = "cube" then .ok .Cube
  else if s = "cube_array" then .ok .CubeArray
  else .error "Not a valid dimension. Must be 1d, 2d, 2d_array, 3d, cube or cube_array."

/-- Mirrors `get_texture_sample_type_value`. -/
def get_texture_sample_type_value (s : String) : Except String BindingTextureSampleType :=
  if s = "float" then .ok (.Float true)
  else if s = "depth" then .ok .Depth
  else if s = "s_int" then .ok .Sint
  else if s = "u_int" then .ok .Uint
  else .error "Not a valid sample type. Must be float, depth, s_int or u_int."

/-- The error reported by the `filterable` post-pass when the resolved sample
type is not float. -/
def filterableErrMsg : String :=
  "Type must be float to use the filterable attribute."

/-- The local accumulator of `get_texture_attrs`: note that the source
initializes each local with `Default::default()` at its own type, so
`multisampled : bool` starts as `false` (not via `TextureAttrs::default`). -/
structure TexAcc where
  dimension : BindingTextureDimension
  sample_type : BindingTextureSampleType
  multisampled : Bool
  filterable : Option Bool
deriving DecidableEq, Repr

/-- One iteration of the meta loop in `get_texture_attrs`. -/
def texStep (acc : TexAcc) (meta : NestedMeta) : Except String TexAcc :=
  match meta with
  | .nameValue n l =>
    if n = "dimension" then do
      let value ← get_lit_str "dimension" l
      let d ← get_texture_dimension_value value
      .ok { acc with dimension := d }
    else if n = "sample_type" then do
      let value ← get_lit_str "sample_type" l
      let st ← get_texture_sample_type_value value
      .ok { acc with sample_type := st }
    else if n = "multisampled" then do
      let b ← get_lit_bool "multisampled" l
      .ok { acc with multisampled := b }
    else if n = "filterable" then do
      let b ← get_lit_bool "filterable" l
      .ok { acc with filterable := some b }
    else
      .error "Not a valid name. Available attributes: dimension, sample_type, multisampled, or filterable."
  | _ => .error "Not a name value pair: foo = ..."

/-- The meta loop of `get_texture_attrs`. -/
def texLoop (acc : TexAcc) : List NestedMeta → Except String TexAcc
  | [] => .ok acc
  | m :: ms =>
    match texStep acc m with
    | .error e => .error e
    | .ok acc' => texLoop acc' ms

/-- Mirrors `get_texture_attrs`: fold the metas over per-type defaults, then
resolve `filterable` as a post-pass against the resolved sample type. -/
def get_texture_attrs (metas : List NestedMeta) : Except String TextureAttrs :=
  match texLoop { dimension := default, sample_type := default,
                  multisampled := default, filterable := none } metas with
  | .error e => .error e
  | .ok acc =>
    match acc.filterable with
    | some filterable =>
      match acc.sample_type with
      | .Float _ =>
        .ok { dimension := acc.dimension, sample_type := .Float filterable,
              multisampled := acc.multisampled }
      | _ => .error filterableErrMsg
    | none =>
      .ok { dimension := acc.dimension, sample_type := acc.sample_type,
            multisampled := acc.multisampled }

/-- Mirrors `get_sampler_binding_type_value`. -/
def get_sampler_binding_type_value (s : String) : Except String SamplerBindingType :=
  if s = "filtering" then .ok .Filtering
  else if s = "non_filtering" then .ok .NonFiltering
  else if s = "comparison" then .ok .Comparison
  else .error "Not a valid dimension. Must be filtering, non_filtering, or comparison."

/-- One iteration of the meta loop in `get_sampler_attrs`. -/
def samplerStep (acc : SamplerAttrs) (meta : NestedMeta) : Except String SamplerAttrs :=
  match meta with
  | .nameValue n l =>
    if n = "sampler_type" then do
      let value ← get_lit_str "dimension" l
      let t ← get_sampler_binding_type_value value
      .ok { acc with sampler_binding_type := t }
    else
      .error "Not a valid name. Available attributes: sampler_type."
  | _ => .error "Not a name value pair: foo = ..."

/-- The meta loop of `get_sampler_attrs`. -/
def samplerLoop (acc : SamplerAttrs) : List NestedMeta → Except String SamplerAttrs
  | [] => .ok acc
  | m :: ms =>
    match samplerStep acc m with
    | .error e => .error e
    | .ok acc' => samplerLoop acc' ms

/-- Mirrors `get_sampler_attrs`. -/
def get_sampler_attrs (metas : List NestedMeta) : Except String SamplerAttrs :=
  samplerLoop { sampler_binding_type := default } metas

/-- Argument tokens of a struct-level attribute, consumed by the two
`parse_args_with` closures in the source (an integer literal, a comma, an
identifier, or anything else). -/
inductive Tok where
  | int (n : Nat)
  | comma
  | ident (s : String)
  | otherTok
deriving DecidableEq, Repr

/-- A struct-level attribute: the identifier of its path (if any; the source
skips attributes whose path is not an identifier) and its argument tokens. -/
structure StructAttr where
  name : Option String
  tokens : List Tok
deriving DecidableEq, Repr

/-- The outcome of `attr.parse_meta()` on a field attribute, as consumed by
`get_binding_nested_meta`: a `Meta::List` of nested metas, or any other
shape (including a parse error). -/
inductive ParsedMeta where
  | list (items : List NestedMeta)
  | otherShape
deriving DecidableEq, Repr

/-- A field-level attribute: path identifier (if any) and parsed meta. -/
structure FieldAttr where
  name : Option String
  meta : ParsedMeta
deriving DecidableEq, Repr

/-- A named struct field: its identifier, its type (as a symbolic token) and
its attributes. -/
structure Field where
  name : String
  ty : String
  attrs : List FieldAttr
deriving DecidableEq, Repr

/-- The body of the annotated aggregate: a struct with named fields, or any
other data shape (tuple struct, enum, unit — all rejected by the source). -/
inductive StructData where
  | namedStruct (fields : List Field)
  | otherData
deriving DecidableEq, Repr

/-- Mirrors the parts of `syn::DeriveInput` the source consumes. -/
structure DeriveInput where
  ident : String
  attrs : List StructAttr
  data : StructData
deriving DecidableEq, Repr

/-- Mirrors `get_binding_nested_meta`: a field binding attribute must be
`#[foo(u32, ...)]`; returns the binding index and the remaining nested metas. -/
def get_binding_nested_meta (meta : ParsedMeta) : Except String (Nat × List NestedMeta) :=
  match meta with
  | .list (NestedMeta.lit (Lit.int n) :: rest) => .ok (n, rest)
  | .list _ => .error "expected #[foo(u32, ...)]"
  | .otherShape => .error "expected #[foo(...)]"

/-- Mirrors the `parse_args_with` closure for struct-level `#[uniform(INDEX, Type)]`:
an integer literal, a comma and an identifier, consuming all input. -/
def parseStructUniformArgs : List Tok → Option (Nat × String)
  | [Tok.int n, Tok.comma, Tok.ident t] => some (n, t)
  | _ => none

/-- Mirrors the `parse_args_with` closure for `#[bind_group_data(Type)]`:
a single identifier consuming all input. -/
def parseDataArgs : List Tok → Option String
  | [Tok.ident t] => some t
  | _ => none

/-- Mirrors enum `BindingState` in the source. -/
inductive BindingState where
  | Free
  | Occupied (binding_type : BindingType) (ident : String)
  | OccupiedConvertedUniform
  | OccupiedMergableUniform (uniform_fields : List Field)
deriving DecidableEq, Repr

/-- The minimum-binding-size expression emitted into a uniform layout entry:
either `min_size` of a named type or of a synthesized uniform struct. -/
inductive MinSizeExpr where
  | ofType (ty : String)
  | ofStruct (struct_name : String)
deriving DecidableEq, Repr

/-- The `ty` field of an emitted `BindGroupLayoutEntry`. -/
inductive LayoutTy where
  | bufferUniform (min_binding_size : MinSizeExpr)
  | texture (multisampled : Bool) (sample_type : BindingTextureSampleType)
      (view_dimension : BindingTextureDimension)
  | samplerTy (ty : SamplerBindingType)
deriving DecidableEq, Repr

/-- An emitted `BindGroupLayoutEntry` (visibility and count are constant in
the source and omitted). -/
structure BindGroupLayoutEntry where
  binding : Nat
  ty : LayoutTy
deriving DecidableEq, Repr

/-- An emitted `BindGroupEntry`: its binding index and the index into the
`bindings` vector captured at emission time (`bindings[#binding_vec_index]`). -/
structure BindGroupEntry where
  binding : Nat
  binding_vec_index : Nat
deriving DecidableEq, Repr

/-- An emitted resource-construction expression (one element of the
`binding_impls` vector). -/
inductive BindingImpl where
  | convertedUniform (converted_shader_type : String)
  | textureView (field_name : String)
  | samplerRes (field_name : String)
  | uniformSingle (field_name : String) (field_ty : String)
  | uniformStruct (struct_name : String) (fields : List (String × String))
deriving DecidableEq, Repr

/-- An emitted synthesized uniform struct declaration: its name and its
(reference-typed) fields in order. -/
structure FieldStructImpl where
  struct_name : String
  fields : List (String × String)
deriving DecidableEq, Repr

/-- The mutable state of `derive_as_bind_group` while scanning attributes. -/
structure ResolveState where
  binding_states : List BindingState
  binding_impls : List BindingImpl
  bind_group_entries : List BindGroupEntry
  binding_layouts : List BindGroupLayoutEntry
  attr_prepared_data_ident : Option String
deriving DecidableEq, Repr

/-- Mirrors `binding_states.resize(required_len, BindingState::Free)` guarded
by `required_len > binding_states.len()`. -/
def resizeStates (l : List BindingState) (required_len : Nat) : List BindingState :=
  if l.length < required_len then l ++ List.replicate (required_len - l.length) .Free else l

/-- Mirrors `binding_states[i] = st` after resizing to hold index `i`. -/
def setState (l : List BindingState) (i : Nat) (st : BindingState) : List BindingState :=
  (resizeStates l (i + 1)).set i st

/-- Reads a slot of the table; out-of-range slots read as `Free` (the source
always resizes before reading, padding with `Free`). -/
def getSt (s : ResolveState) (i : Nat) : BindingState :=
  s.binding_states.getD i .Free

/-- The initial resolver state. -/
def initState : ResolveState :=
  { binding_states := [], binding_impls := [], bind_group_entries := [],
    binding_layouts := [], attr_prepared_data_ident := none }

/-- One iteration of the struct-level attribute loop.  Note the source stores
`BindingState::OccupiedConvertedUniform` without checking the previous
occupant, and silently ignores `bind_group_data` argument parse failures. -/
def processStructAttr (s : ResolveState) (attr : StructAttr) : Except String ResolveState :=
  match attr.name with
  | none => .ok s
  | some n =>
    if n = "bind_group_data" then
      match parseDataArgs attr.tokens with
      | some prepared_data_ident => .ok { s with attr_prepared_data_ident := some prepared_data_ident }
      | none => .ok s
    else if n = "uniform" then
      match parseStructUniformArgs attr.tokens with
      | none => .error "struct-level uniform bindings must be in the format: uniform(BINDING_INDEX, ConvertedShaderType)"
      | some (binding_index, converted_shader_type) =>
        let binding_vec_index := s.bind_group_entries.length
        .ok { s with
          binding_impls := s.binding_impls ++ [.convertedUniform converted_shader_type],
          binding_layouts := s.binding_layouts ++
            [{ binding := binding_index, ty := .bufferUniform (.ofType converted_shader_type) }],
          bind_group_entries := s.bind_group_entries ++
            [{ binding := binding_index, binding_vec_index := binding_vec_index }],
          binding_states := setState s.binding_states binding_index .OccupiedConvertedUniform }
    else .ok s

/-- The struct-level attribute loop. -/
def processStructAttrs (s : ResolveState) : List StructAttr → Except String ResolveState
  | [] => .ok s
  | a :: as =>
    match processStructAttr s a with
    | .error e => .error e
    | .ok s' => processStructAttrs s' as

/-- Maps a field attribute identifier to its binding kind (the source
`continue`s on any other identifier). -/
def fieldAttrKind (n : String) : Option BindingType :=
  if n = "uniform" then some .Uniform
  else if n = "texture" then some .Texture
  else if n = "sampler" then some .Sampler
  else none

/-- The slot-transition step of the field loop: occupy a free slot (pushing a
bind group entry for non-uniforms), merge a uniform into a mergeable slot, or
fail on a conflict. -/
def applySlotTransition (field : Field) (binding_type : BindingType) (binding_index : Nat)
    (s : ResolveState) : Except String ResolveState :=
  match (resizeStates s.binding_states (binding_index + 1)).getD binding_index .Free with
  | .Free =>
    match binding_type with
    | .Uniform =>
      let st : BindingState := .OccupiedMergableUniform [field]
      .ok { s with binding_states := setState s.binding_states binding_index st }
    | _ =>
      let binding_vec_index := s.bind_group_entries.length
      let st : BindingState := .Occupied binding_type field.name
      .ok { s with
        bind_group_entries := s.bind_group_entries ++
          [{ binding := binding_index, binding_vec_index := binding_vec_index }],
        binding_states := setState s.binding_states binding_index st }
  | .Occupied _ occupied_ident =>
    .error ("The " ++ field.name ++ " field cannot be assigned to binding " ++
      toString binding_index ++ " because it is already occupied by the field " ++
      occupied_ident ++ ".")
  | .OccupiedConvertedUniform =>
    .error ("The " ++ field.name ++ " field cannot be assigned to binding " ++
      toString binding_index ++
      " because it is already occupied by a struct-level uniform binding at the same index.")
  | .OccupiedMergableUniform uniform_fields =>
    match binding_type with
    | .Uniform =>
      let st : BindingState := .OccupiedMergableUniform (uniform_fields ++ [field])
      .ok { s with binding_states := setState s.binding_states binding_index st }
    | _ =>
      .error ("The " ++ field.name ++ " field cannot be assigned to binding " ++
        toString binding_index ++ " because it is already occupied by a Uniform.")

/-- The per-kind code generation of the field loop: uniform codegen is
deferred; texture and sampler parse their sub-attributes and push one
resource-construction expression and one layout entry. -/
def applyKindCodegen (field : Field) (binding_type : BindingType) (binding_index : Nat)
    (nested_meta_items : List NestedMeta) (s : ResolveState) : Except String ResolveState :=
  match binding_type with
  | .Uniform => .ok s
  | .Texture =>
    match get_texture_attrs nested_meta_items with
    | .error e => .error e
    | .ok texture_attrs =>
      .ok { s with
        binding_impls := s.binding_impls ++ [.textureView field.name],
        binding_layouts := s.binding_layouts ++
          [{ binding := binding_index,
             ty := .texture texture_attrs.multisampled texture_attrs.sample_type
               texture_attrs.dimension }] }
  | .Sampler =>
    match get_sampler_attrs nested_meta_items with
    | .error e => .error e
    | .ok sampler_attrs =>
      .ok { s with
        binding_impls := s.binding_impls ++ [.samplerRes field.name],
        binding_layouts := s.binding_layouts ++
          [{ binding := binding_index,
             ty := .samplerTy sampler_attrs.sampler_binding_type }] }

/-- One iteration of the field-attribute loop. -/
def processFieldAttr (field : Field) (s : ResolveState) (attr : FieldAttr) :
    Except String ResolveState :=
  match attr.name with
  | none => .error "Expected identifier"
  | some n =>
    match fieldAttrKind n with
    | none => .ok s
    | some binding_type =>
      match get_binding_nested_meta attr.meta with
      | .error e => .error e
      | .ok (binding_index, nested_meta_items) =>
        match applySlotTransition field binding_type binding_index s with
        | .error e => .error e
        | .ok s' => applyKindCodegen field binding_type binding_index nested_meta_items s'

/-- The inner loop over one field's attributes. -/
def processFieldAttrs (field : Field) (s : ResolveState) : List FieldAttr → Except String ResolveState
  | [] => .ok s
  | a :: as =>
    match processFieldAttr field s a with
    | .error e => .error e
    | .ok s' => processFieldAttrs field s' as

/-- The outer loop over the struct's named fields. -/
def processFields (s : ResolveState) : List Field → Except String ResolveState
  | [] => .ok s
  | f :: fs =>
    match processFieldAttrs f s f.attrs with
    | .error e => .error e
    | .ok s' => processFields s' fs

/-- Mirrors the synthesized uniform struct name
`_{struct_name}AsBindGroupUniformStructBindGroup{binding_index}`. -/
def uniformStructName (struct_name : String) (binding_index : Nat) : String :=
  "_" ++ struct_name ++ "AsBindGroupUniformStructBindGroup" ++ toString binding_index

/-- The accumulator of the second (merged-uniform emission) pass. -/
structure EmitAcc where
  field_struct_impls : List FieldStructImpl
  binding_impls : List BindingImpl
  bind_group_entries : List BindGroupEntry
  binding_layouts : List BindGroupLayoutEntry
deriving DecidableEq, Repr

/-- Emission for one slot of the second pass: a `MergeableUniform` slot pushes
one bind group entry and then either the single-field or the synthesized-struct
uniform codegen; every other slot is skipped. -/
def emitMergedSlot (struct_name : String) (acc : EmitAcc) (binding_index : Nat)
    (st : BindingState) : EmitAcc :=
  match st with
  | .OccupiedMergableUniform uniform_fields =>
    let acc : EmitAcc := { acc with bind_group_entries := acc.bind_group_entries ++
      [{ binding := binding_index, binding_vec_index := acc.bind_group_entries.length }] }
    match uniform_fields with
    | [field] =>
      { acc with
        binding_impls := acc.binding_impls ++ [.uniformSingle field.name field.ty],
        binding_layouts := acc.binding_layouts ++
          [{ binding := binding_index, ty := .bufferUniform (.ofType field.ty) }] }
    | _ =>
      let nm := uniformStructName struct_name binding_index
      { acc with
        field_struct_impls := acc.field_struct_impls ++
          [{ struct_name := nm, fields := uniform_fields.map (fun f => (f.name, f.ty)) }],
        binding_impls := acc.binding_impls ++
          [.uniformStruct nm (uniform_fields.map (fun f => (f.name, f.ty)))],
        binding_layouts := acc.binding_layouts ++
          [{ binding := binding_index, ty := .bufferUniform (.ofStruct nm) }] }
  | _ => acc

/-- The second pass: iterate the slot table in ascending index order. -/
def emitMergedSlots (struct_name : String) (acc : EmitAcc) (binding_index : Nat) :
    List BindingState → EmitAcc
  | [] => acc
  | st :: rest =>
    emitMergedSlots struct_name (emitMergedSlot struct_name acc binding_index st)
      (binding_index + 1) rest

/-- The emitted artifacts of the whole derive: the synthesized uniform
structs, the three parallel vectors spliced into the generated impl, and the
associated `Data` type token. -/
structure Output where
  field_struct_impls : List FieldStructImpl
  binding_impls : List BindingImpl
  bind_group_entries : List BindGroupEntry
  binding_layouts : List BindGroupLayoutEntry
  prepared_data : String
deriving DecidableEq, Repr

/-- Mirrors `derive_as_bind_group`: struct-level attribute scan, struct-shape
check, field-level scan, merged-uniform emission, and contract assembly. -/
def derive_as_bind_group (ast : DeriveInput) : Except String Output :=
  match processStructAttrs initState ast.attrs with
  | .error e => .error e
  | .ok s =>
    match ast.data with
    | .otherData => .error "Expected a struct with named fields"
    | .namedStruct fields =>
      match processFields s fields with
      | .error e => .error e
      | .ok s2 =>
        let acc := emitMergedSlots ast.ident
          { field_struct_impls := [], binding_impls := s2.binding_impls,
            bind_group_entries := s2.bind_group_entries,
            binding_layouts := s2.binding_layouts } 0 s2.binding_states
        .ok { field_struct_impls := acc.field_struct_impls,
              binding_impls := acc.binding_impls,
              bind_group_entries := acc.bind_group_entries,
              binding_layouts := acc.binding_layouts,
              prepared_data :=
                match s2.attr_prepared_data_ident with
                | some prepared => prepared
                | none => "()" }

/-- A loaded image in the render-asset registry, as consumed by the emitted
texture/sampler construction expressions (`texture_view` and `sampler` are
symbolic resource tags). -/
structure Image where
  texture_view : String
  sampler : String
deriving DecidableEq, Repr

/-- The runtime error type of the generated `as_bind_group`; the emitted code
constructs exactly one kind, `RetryNextUpdate`. -/
inductive AsBindGroupError where
  | RetryNextUpdate
deriving DecidableEq, Repr

/-- A constructed runtime binding resource. -/
inductive OwnedBindingResource where
  | textureViewRes (v : String)
  | samplerResource (v : String)
deriving DecidableEq, Repr

/-- Runtime semantics of the emitted texture construction expression
(source lines 255-264): resolve the optional handle against the registry,
fail with `RetryNextUpdate` if the image is not loaded, or substitute the
fallback image when no handle is set. -/
def textureBindingExpr (images : String → Option Image) (fallback_image : Image)
    (handle : Option String) : Except AsBindGroupError OwnedBindingResource :=
  match handle with
  | some h =>
    match images h with
    | some image => .ok (.textureViewRes image.texture_view)
    | none => .error .RetryNextUpdate
  | none => .ok (.textureViewRes fallback_image.texture_view)

/-- Runtime semantics of the emitted sampler construction expression
(source lines 288-297). -/
def samplerBindingExpr (images : String → Option Image) (fallback_image : Image)
    (handle : Option String) : Except AsBindGroupError OwnedBindingResource :=
  match handle with
  | some h =>
    match images h with
    | some image => .ok (.samplerResource image.sampler)
    | none => .error .RetryNextUpdate
  | none => .ok (.samplerResource fallback_image.sampler)

/-- Modelled from the spec: the multi-member merged-uniform path (synthesized
packed-record type, one field per member) applied uniformly to every mergeable
slot, including slots holding a single member — the behaviour the spec claims
the singleton case is equivalent to.  Used only to compare against the
source's `emitMergedSlot`, which special-cases a single uniform field. -/
def emitMergedSlotRecordPath (struct_name : String) (acc : EmitAcc) (binding_index : Nat)
    (st : BindingState) : EmitAcc :=
  match st with
  | .OccupiedMergableUniform uniform_fields =>
    let acc : EmitAcc := { acc with bind_group_entries := acc.bind_group_entries ++
      [{ binding := binding_index, binding_vec_index := acc.bind_group_entries.length }] }
    let nm := uniformStructName struct_name binding_index
    { acc with
      field_struct_impls := acc.field_struct_impls ++
        [{ struct_name := nm, fields := uniform_fields.map (fun f => (f.name, f.ty)) }],
      binding_impls := acc.binding_impls ++
        [.uniformStruct nm (uniform_fields.map (fun f => (f.name, f.ty)))],
      binding_layouts := acc.binding_layouts ++
        [{ binding := binding_index, ty := .bufferUniform (.ofStruct nm) }] }
  | _ => acc

/-- The binding indices of the well-formed struct-level uniform declarations,
in declaration order. -/
def structUniformIndices (attrs : List StructAttr) : List Nat :=
  attrs.filterMap (fun a =>
    match a.name with
    | some n => if n = "uniform" then (parseStructUniformArgs a.tokens).map Prod.fst else none
    | none => none)

/-- The member-level binding declaration carried by one field attribute:
its kind and binding index, when the attribute is a recognized binding
attribute whose meta parses. -/
def declOfAttr (a : FieldAttr) : List (BindingType × Nat) :=
  match a.name with
  | some n =>
    match fieldAttrKind n with
    | some bt =>
      match get_binding_nested_meta a.meta with
      | .ok (i, _) => [(bt, i)]
      | .error _ => []
    | none => []
  | none => []

/-- All member-level binding declarations of a field, in attribute order. -/
def declsOfField (f : Field) : List (BindingType × Nat) :=
  (f.attrs.map declOfAttr).flatten

/-- All member-level binding declarations of a field list, in declaration
(encounter) order. -/
def declsOfFields (fields : List Field) : List (BindingType × Nat) :=
  (fields.map declsOfField).flatten

/-- All member-level binding declarations of an aggregate. -/
def declsOf (ast : DeriveInput) : List (BindingType × Nat) :=
  match ast.data with
  | .namedStruct fields => declsOfFields fields
  | .otherData => []

/-- The binding indices of the non-uniform member declarations, in order. -/
def nuIdx (ds : List (BindingType × Nat)) : List Nat :=
  ds.filterMap (fun d => if d.1 = BindingType.Uniform then none else some d.2)

/-- The binding indices of the uniform member declarations, in order. -/
def uIdx (ds : List (BindingType × Nat)) : List Nat :=
  ds.filterMap (fun d => if d.1 = BindingType.Uniform then some d.2 else none)

/-- All binding indices declared by an aggregate (struct-level first, then
member declarations in encounter order). -/
def declaredIndices (ast : DeriveInput) : List Nat :=
  structUniformIndices ast.attrs ++ (declsOf ast).map Prod.snd

/-- The binding indices whose entries are emitted during the first
(declaration-encounter) pass: struct-level converted uniforms, then
non-uniform member declarations. -/
def encounterIndices (ast : DeriveInput) : List Nat :=
  structUniformIndices ast.attrs ++ nuIdx (declsOf ast)

/-- The binding indices of the uniform member declarations of an aggregate. -/
def memberUniformIndices (ast : DeriveInput) : List Nat :=
  uIdx (declsOf ast)

/-- Whether a slot state is `Occupied`. -/
def isOcc : BindingState → Bool
  | .Occupied _ _ => true
  | _ => false

/-- Whether a slot state is `OccupiedConvertedUniform`. -/
def isCU : BindingState → Bool
  | .OccupiedConvertedUniform => true
  | _ => false

/-- Whether a slot state is `OccupiedMergableUniform`. -/
def isMerge : BindingState → Bool
  | .OccupiedMergableUniform _ => true
  | _ => false

/-- The slot indices (offset by `k`) of the mergeable-uniform slots of a
state table, in ascending order — the indices the second pass emits. -/
def mergedIdxFrom (k : Nat) : List BindingState → List Nat
  | [] => []
  | st :: rest => (if isMerge st then [k] else []) ++ mergedIdxFrom (k + 1) rest

/-- A slot table slot holding exactly one merged uniform field, used to
compare the source's singleton emission with the record path. -/
def singletonMergeSlot : BindingState :=
  .OccupiedMergableUniform [{ name := "a", ty := "f32", attrs := [] }]

/-- An empty emission accumulator. -/
def emptyEmitAcc : EmitAcc :=
  { field_struct_impls := [], binding_impls := [], bind_group_entries := [],
    binding_layouts := [] }

/-- The input exhibiting two aggregate-level converted-uniform declarations at
the same binding index. -/
def dupAggregateInput : DeriveInput :=
  { ident := "M",
    attrs := [{ name := some "uniform", tokens := [.int 0, .comma, .ident "Ta"] },
              { name := some "uniform", tokens := [.int 0, .comma, .ident "Tb"] }],
    data := .namedStruct [] }

/-- A texture declaration at binding index 0. -/
def texAttr0 : FieldAttr :=
  { name := some "texture", meta := .list [.lit (.int 0)] }

/-- First conflicting field. -/
def fieldB : Field := { name := "b", ty := "H", attrs := [texAttr0] }

/-- Second conflicting field. -/
def fieldC : Field := { name := "c", ty := "H", attrs := [texAttr0] }

/-- The aggregate declaring two texture members at the same index. -/
def conflictInput : DeriveInput :=
  { ident := "M", attrs := [], data := .namedStruct [fieldB, fieldC] }

/-- The resolver state after processing `fieldB`. -/
def conflictMidState : ResolveState :=
  { binding_states := [.Occupied .Texture "b"],
    binding_impls := [.textureView "b"],
    bind_group_entries := [{ binding := 0, binding_vec_index := 0 }],
    binding_layouts := [{ binding := 0, ty := .texture false (.Float true) .D2 }],
    attr_prepared_data_ident := none }

/-- The aggregate carrying a malformed `bind_group_data` declaration (an
integer literal where an identifier is required). -/
def malformedDataInput : DeriveInput :=
  { ident := "M",
    attrs := [{ name := some "bind_group_data", tokens := [.int 5] }],
    data := .namedStruct [] }

/-- The aggregate carrying a malformed struct-level uniform declaration. -/
def malformedStructUniformInput : DeriveInput :=
  { ident := "M",
    attrs := [{ name := some "uniform", tokens := [.int 0] }],
    data := .namedStruct [] }

/-- Whether a dimension string is in the accepted vocabulary. -/
def dimOk (s : String) : Bool :=
  match get_texture_dimension_value s with
  | .ok _ => true
  | .error _ => false

/-- Whether a sample type string is in the accepted vocabulary. -/
def sampleOk (s : String) : Bool :=
  match get_texture_sample_type_value s with
  | .ok _ => true
  | .error _ => false

/-- A texture nested meta that parses without error on its own: a recognized
key with a value of the right literal kind and, for the string-valued keys, a
value in the accepted vocabulary. -/
def texMetaWF : NestedMeta → Bool
  | .nameValue n (.str s) =>
    if n = "dimension" then dimOk s
    else if n = "sample_type" then sampleOk s
    else false
  | .nameValue n (.boolean _) =>
    if n = "multisampled" then true
    else if n = "filterable" then true
    else false
  | _ => false

/-- The effect of one meta on the pending `filterable` value: the last
`filterable` key wins. -/
def filtStep (acc : Option Bool) (m : NestedMeta) : Option Bool :=
  match m with
  | .nameValue n (.boolean b) => if n = "filterable" then some b else acc
  | _ => acc

/-- The pending `filterable` value after all metas. -/
def lastFilterableFrom (a : Option Bool) (metas : List NestedMeta) : Option Bool :=
  metas.foldl filtStep a

/-- The effect of one meta on the resolved sample type: the last valid
`sample_type` key wins. -/
def sampleStep (acc : BindingTextureSampleType) (m : NestedMeta) : BindingTextureSampleType :=
  match m with
  | .nameValue n (.str s) =>
    if n = "sample_type" then
      match get_texture_sample_type_value s with
      | .ok v => v
      | .error _ => acc
    else acc
  | _ => acc

/-- The resolved sample type after all metas (before the `filterable`
post-pass). -/
def lastSampleFrom (st : BindingTextureSampleType) (metas : List NestedMeta) :
    BindingTextureSampleType :=
  metas.foldl sampleStep st

/-- Whether a sample type is the float variant. -/
def isFloatSt : BindingTextureSampleType → Bool
  | .Float _ => true
  | _ => false

/-- The resource-construction expression a non-uniform field declaration
emits. -/
def nonUniformImpl (bt : BindingType) (f : Field) : BindingImpl :=
  match bt with
  | .Texture => .textureView f.name
  | _ => .samplerRes f.name

/-- The layout entry the second pass emits for a mergeable slot. -/
def mergedSlotLayout (nm : String) (k : Nat) (fs : List Field) : BindGroupLayoutEntry :=
  { binding := k,
    ty := .bufferUniform (match fs with
      | [f] => .ofType f.ty
      | _ => .ofStruct (uniformStructName nm k)) }

/-- The resource construction the second pass emits for a mergeable slot. -/
def mergedSlotImpl (nm : String) (k : Nat) (fs : List Field) : BindingImpl :=
  match fs with
  | [f] => .uniformSingle f.name f.ty
  | _ => .uniformStruct (uniformStructName nm k) (fs.map (fun f => (f.name, f.ty)))

/-- The synthesized struct declarations the second pass emits for a mergeable
slot (none in the singleton case). -/
def mergedSlotStructs (nm : String) (k : Nat) (fs : List Field) : List FieldStructImpl :=
  match fs with
  | [_] => []
  | _ => [{ struct_name := uniformStructName nm k,
            fields := fs.map (fun f => (f.name, f.ty)) }]

/-- The layout entries the second pass appends, scanning the table from slot
`k`. -/
def mergedLayoutsFrom (nm : String) (k : Nat) : List BindingState → List BindGroupLayoutEntry
  | [] => []
  | .OccupiedMergableUniform fs :: rest => mergedSlotLayout nm k fs :: mergedLayoutsFrom nm (k + 1) rest
  | _ :: rest => mergedLayoutsFrom nm (k + 1) rest

/-- The resource constructions the second pass appends. -/
def mergedImplsFrom (nm : String) (k : Nat) : List BindingState → List BindingImpl
  | [] => []
  | .OccupiedMergableUniform fs :: rest => mergedSlotImpl nm k fs :: mergedImplsFrom nm (k + 1) rest
  | _ :: rest => mergedImplsFrom nm (k + 1) rest

/-- The synthesized struct declarations the second pass appends. -/
def mergedStructsFrom (nm : String) (k : Nat) : List BindingState → List FieldStructImpl
  | [] => []
  | .OccupiedMergableUniform fs :: rest => mergedSlotStructs nm k fs ++ mergedStructsFrom nm (k + 1) rest
  | _ :: rest => mergedStructsFrom nm (k + 1) rest

/-- The bind group entries the second pass appends: `base` is the length of
the entry vector when the scan reaches slot `k`. -/
def mergedEntriesFrom (base k : Nat) : List BindingState → List BindGroupEntry
  | [] => []
  | .OccupiedMergableUniform _ :: rest =>
    { binding := k, binding_vec_index := base } :: mergedEntriesFrom (base + 1) (k + 1) rest
  | _ :: rest => mergedEntriesFrom base (k + 1) rest

/-- The alignment invariant between the resource-construction vector and the
entry vector: equal lengths, and the `k`-th entry captures vector index `k`. -/
def EntriesOk (impls : List BindingImpl) (entries : List BindGroupEntry) : Prop :=
  impls.length = entries.length ∧
  ∀ (k : Nat) (e : BindGroupEntry), entries[k]? = some e → e.binding_vec_index = k

/-- A uniform declaration at binding index 0. -/
def uniAttr0 : FieldAttr :=
  { name := some "uniform", meta := .list [.lit (.int 0)] }

/-- First merged uniform member. -/
def fieldA : Field := { name := "a", ty := "f32", attrs := [uniAttr0] }

/-- Second merged uniform member. -/
def fieldD : Field := { name := "d", ty := "f32", attrs := [uniAttr0] }

/-- The aggregate declaring two uniform members at the same index. -/
def mergedUniformInput : DeriveInput :=
  { ident := "M", attrs := [], data := .namedStruct [fieldA, fieldD] }

/-- The resolver state after the field pass on `mergedUniformInput`. -/
def mergedUniformMidState : ResolveState :=
  { binding_states := [.OccupiedMergableUniform [fieldA, fieldD]],
    binding_impls := [], bind_group_entries := [], binding_layouts := [],
    attr_prepared_data_ident := none }

/-- The emitted artifacts for `mergedUniformInput`. -/
def mergedUniformOutput : Output :=
  { field_struct_impls :=
      [{ struct_name := uniformStructName "M" 0, fields := [("a", "f32"), ("d", "f32")] }],
    binding_impls := [.uniformStruct (uniformStructName "M" 0) [("a", "f32"), ("d", "f32")]],
    bind_group_entries := [{ binding := 0, binding_vec_index := 0 }],
    binding_layouts :=
      [{ binding := 0, ty := .bufferUniform (.ofStruct (uniformStructName "M" 0)) }],
    prepared_data := "()" }

/-- The simulation relation carried across the field pass: `ds` are the
binding declarations processed; the entry and layout index sequences are
extended exactly by the non-uniform indices in encounter order, converted
slots are untouched, occupied slots are exactly the old ones plus the
non-uniform declarations (which required free slots), mergeable slots are the
old ones plus the uniform declarations, and the non-uniform indices are
pairwise distinct and disjoint from the uniform ones. -/
structure FieldRel (ds : List (BindingType × Nat)) (s t : ResolveState) : Prop where
  entry_eq : t.bind_group_entries.map BindGroupEntry.binding =
    s.bind_group_entries.map BindGroupEntry.binding ++ nuIdx ds
  layout_eq : t.binding_layouts.map BindGroupLayoutEntry.binding =
    s.binding_layouts.map BindGroupLayoutEntry.binding ++ nuIdx ds
  cu_iff : ∀ i, isCU (getSt t i) = true ↔ isCU (getSt s i) = true
  occ_iff : ∀ i, isOcc (getSt t i) = true ↔ (isOcc (getSt s i) = true ∨ i ∈ nuIdx ds)
  merge_iff : ∀ i, isMerge (getSt t i) = true ↔ (isMerge (getSt s i) = true ∨ i ∈ uIdx ds)
  nu_free : ∀ i ∈ nuIdx ds, getSt s i = .Free
  u_start : ∀ i ∈ uIdx ds, getSt s i = .Free ∨ isMerge (getSt s i) = true
  nu_nodup : (nuIdx ds).Nodup
  nu_not_u : ∀ i ∈ nuIdx ds, i ∉ uIdx ds

/-- A texture declaration at binding index 1 with an explicit 2d dimension. -/
def texAttr1 : FieldAttr :=
  { name := some "texture", meta := .list [.lit (.int 1), .nameValue "dimension" (.str "2d")] }

/-- A sampler declaration at binding index 2. -/
def sampAttr2 : FieldAttr :=
  { name := some "sampler", meta := .list [.lit (.int 2)] }

/-- The declaration set of the spec's worked example: a merged uniform at 0,
a texture at 1 and a sampler at 2. -/
def exampleInput : DeriveInput :=
  { ident := "M", attrs := [],
    data := .namedStruct [{ name := "a", ty := "f32", attrs := [uniAttr0] },
                          { name := "b", ty := "H", attrs := [texAttr1] },
                          { name := "c", ty := "H", attrs := [sampAttr2] },
                          { name := "d", ty := "f32", attrs := [uniAttr0] }] }

/-- The emitted artifacts for `exampleInput`. -/
def exampleOutput : Output :=
  { field_struct_impls :=
      [{ struct_name := uniformStructName "M" 0, fields := [("a", "f32"), ("d", "f32")] }],
    binding_impls := [.textureView "b", .samplerRes "c",
                      .uniformStruct (uniformStructName "M" 0) [("a", "f32"), ("d", "f32")]],
    bind_group_entries := [{ binding := 1, binding_vec_index := 0 },
                           { binding := 2, binding_vec_index := 1 },
                           { binding := 0, binding_vec_index := 2 }],
    binding_layouts := [{ binding := 1, ty := .texture false (.Float true) .D2 },
                        { binding := 2, ty := .samplerTy .Filtering },
                        { binding := 0, ty := .bufferUniform (.ofStruct (uniformStructName "M" 0)) }],
    prepared_data := "()" }

/-- The declaration set with a texture at index 2 declared before a sampler at
index 1. -/
def nonAscendInput : DeriveInput :=
  { ident := "M", attrs := [],
    data := .namedStruct [
      { name := "b", ty := "H",
        attrs := [{ name := some "texture", meta := .list [.lit (.int 2)] }] },
      { name := "c", ty := "H",
        attrs := [{ name := some "sampler", meta := .list [.lit (.int 1)] }] }] }

/-- C1: the claim states that a texture declaration without a `multisampled`
key resolves to `multisampled = true`, the default documented by
`impl Default for TextureAttrs`.  The parser instead initializes its local
`multisampled` with the `bool` default `false` and never consults
`TextureAttrs::default`, so every declaration omitting the key resolves to
`multisampled = false` while the declared default is `true`. -/
theorem c1_multisampled_default_bug :
    (get_texture_attrs []).map TextureAttrs.multisampled = .ok false ∧
    (get_texture_attrs [.nameValue "dimension" (.str "cube"),
        .nameValue "sample_type" (.str "depth")]).map TextureAttrs.multisampled = .ok false ∧
    (get_texture_attrs [.nameValue "filterable" (.boolean true)]).map
        TextureAttrs.multisampled = .ok false ∧
    (default : TextureAttrs).multisampled = true := by
  refine ⟨rfl, rfl, rfl, rfl⟩

/-- C8: for the emitted texture and sampler construction expressions, a
present handle whose image is missing from the registry yields exactly the
retryable error `RetryNextUpdate`; an absent handle substitutes the fallback
image's resource and succeeds; a loaded handle succeeds; and every error
value the expressions produce is `RetryNextUpdate`. -/
theorem c8_texture_sampler_runtime (images : String → Option Image) (fallback_image : Image) :
    (∀ h, images h = none →
      textureBindingExpr images fallback_image (some h) = .error .RetryNextUpdate) ∧
    (textureBindingExpr images fallback_image none =
      .ok (.textureViewRes fallback_image.texture_view)) ∧
    (∀ h image, images h = some image →
      textureBindingExpr images fallback_image (some h) = .ok (.textureViewRes image.texture_view)) ∧
    (∀ handle e, textureBindingExpr images fallback_image handle = .error e →
      e = .RetryNextUpdate) ∧
    (∀ h, images h = none →
      samplerBindingExpr images fallback_image (some h) = .error .RetryNextUpdate) ∧
    (samplerBindingExpr images fallback_image none =
      .ok (.samplerResource fallback_image.sampler)) ∧
    (∀ h image, images h = some image →
      samplerBindingExpr images fallback_image (some h) = .ok (.samplerResource image.sampler)) ∧
    (∀ handle e, samplerBindingExpr images fallback_image handle = .error e →
      e = .RetryNextUpdate) := by
  refine ⟨?_, rfl, ?_, ?_, ?_, rfl, ?_, ?_⟩
  · intro h hnone
    simp [textureBindingExpr, hnone]
  · intro h image hsome
    simp [textureBindingExpr, hsome]
  · intro handle e _
    cases e
    rfl
  · intro h hnone
    simp [samplerBindingExpr, hnone]
  · intro h image hsome
    simp [samplerBindingExpr, hsome]
  · intro handle e _
    cases e
    rfl

/-- Witness for C8 at a concrete registry: the lookup misses, and the
texture construction expression returns the retryable error. -/
theorem c8_witness :
    (fun (_ : String) => (none : Option Image)) "h" = none ∧
    textureBindingExpr (fun _ => none) { texture_view := "fv", sampler := "fs" } (some "h") =
      .error .RetryNextUpdate := by
  exact ⟨rfl,
    (c8_texture_sampler_runtime (fun _ => none)
      { texture_view := "fv", sampler := "fs" }).1 "h" rfl⟩

/-- C9 counterexample: at a slot holding exactly one uniform member, the
source's emission is not equal to what the multi-member merged (synthesized
record) path would produce for the same slot: the emitted resource
construction serializes the field directly and the emitted minimum size is
the field type's `min_size`, not the synthesized record's. -/
theorem c9_counterexample :
    emitMergedSlot "M" emptyEmitAcc 0 singletonMergeSlot ≠
      emitMergedSlotRecordPath "M" emptyEmitAcc 0 singletonMergeSlot := by
  decide

/-- C9 amended: a slot holding exactly one uniform member is special-cased —
the emitted construction serializes that member's value directly and the
emitted minimum binding size is the member's own type's `min_size`; the
synthesized-record path (whose minimum size is that of a one-field record)
differs from it syntactically and is used only for two or more members. -/
theorem c9_singleton_uniform_emission (struct_name : String) (acc : EmitAcc)
    (binding_index : Nat) (f : Field) :
    emitMergedSlot struct_name acc binding_index (.OccupiedMergableUniform [f]) =
      { acc with
        bind_group_entries := acc.bind_group_entries ++
          [{ binding := binding_index, binding_vec_index := acc.bind_group_entries.length }],
        binding_impls := acc.binding_impls ++ [.uniformSingle f.name f.ty],
        binding_layouts := acc.binding_layouts ++
          [{ binding := binding_index, ty := .bufferUniform (.ofType f.ty) }] } ∧
    emitMergedSlotRecordPath struct_name acc binding_index (.OccupiedMergableUniform [f]) =
      { acc with
        bind_group_entries := acc.bind_group_entries ++
          [{ binding := binding_index, binding_vec_index := acc.bind_group_entries.length }],
        field_struct_impls := acc.field_struct_impls ++
          [{ struct_name := uniformStructName struct_name binding_index,
             fields := [(f.name, f.ty)] }],
        binding_impls := acc.binding_impls ++
          [.uniformStruct (uniformStructName struct_name binding_index) [(f.name, f.ty)]],
        binding_layouts := acc.binding_layouts ++
          [{ binding := binding_index,
             ty := .bufferUniform (.ofStruct (uniformStructName struct_name binding_index)) }] } ∧
    MinSizeExpr.ofType f.ty ≠
      MinSizeExpr.ofStruct (uniformStructName struct_name binding_index) := by
  refine ⟨rfl, rfl, ?_⟩
  intro h
  exact MinSizeExpr.noConfusion h

/-- Splitting the struct-attribute loop across an append. -/
theorem processStructAttrs_append (l1 l2 : List StructAttr) (s : ResolveState) :
    processStructAttrs s (l1 ++ l2) =
      match processStructAttrs s l1 with
      | .error e => .error e
      | .ok t => processStructAttrs t l2 := by
  induction l1 generalizing s with
  | nil => simp [processStructAttrs]
  | cons a rest ih =>
    simp only [List.cons_append, processStructAttrs]
    cases processStructAttr s a with
    | error e => rfl
    | ok t => exact ih t

/-- Splitting one field's attribute loop across an append. -/
theorem processFieldAttrs_append (f : Field) (l1 l2 : List FieldAttr) (s : ResolveState) :
    processFieldAttrs f s (l1 ++ l2) =
      match processFieldAttrs f s l1 with
      | .error e => .error e
      | .ok t => processFieldAttrs f t l2 := by
  induction l1 generalizing s with
  | nil => simp [processFieldAttrs]
  | cons a rest ih =>
    simp only [List.cons_append, processFieldAttrs]
    cases processFieldAttr f s a with
    | error e => rfl
    | ok t => exact ih t

/-- Splitting the field loop across an append. -/
theorem processFields_append (l1 l2 : List Field) (s : ResolveState) :
    processFields s (l1 ++ l2) =
      match processFields s l1 with
      | .error e => .error e
      | .ok t => processFields t l2 := by
  induction l1 generalizing s with
  | nil => simp [processFields]
  | cons f rest ih =>
    simp only [List.cons_append, processFields]
    cases processFieldAttrs f s f.attrs with
    | error e => rfl
    | ok t => exact ih t

/-- A struct attribute that fails from every state fails the whole
struct-attribute loop wherever it occurs. -/
theorem processStructAttrs_error_of_mem (a : StructAttr)
    (h : ∀ t, ∃ e, processStructAttr t a = .error e) (l1 l2 : List StructAttr)
    (s : ResolveState) : ∃ e, processStructAttrs s (l1 ++ a :: l2) = .error e := by
  induction l1 generalizing s with
  | nil =>
    obtain ⟨e, he⟩ := h s
    exact ⟨e, by simp [processStructAttrs, he]⟩
  | cons b rest ih =>
    simp only [List.cons_append, processStructAttrs]
    cases hb : processStructAttr s b with
    | error e => exact ⟨e, rfl⟩
    | ok t => exact ih t

/-- A field attribute that fails from every state fails the attribute loop of
its field wherever it occurs. -/
theorem processFieldAttrs_error_of_mem (f : Field) (a : FieldAttr)
    (h : ∀ t, ∃ e, processFieldAttr f t a = .error e) (l1 l2 : List FieldAttr)
    (s : ResolveState) : ∃ e, processFieldAttrs f s (l1 ++ a :: l2) = .error e := by
  induction l1 generalizing s with
  | nil =>
    obtain ⟨e, he⟩ := h s
    exact ⟨e, by simp [processFieldAttrs, he]⟩
  | cons b rest ih =>
    simp only [List.cons_append, processFieldAttrs]
    cases hb : processFieldAttr f s b with
    | error e => exact ⟨e, rfl⟩
    | ok t => exact ih t

/-- A field that fails from every state fails the field loop wherever it
occurs. -/
theorem processFields_error_of_mem (f : Field)
    (h : ∀ t, ∃ e, processFieldAttrs f t f.attrs = .error e) (l1 l2 : List Field)
    (s : ResolveState) : ∃ e, processFields s (l1 ++ f :: l2) = .error e := by
  induction l1 generalizing s with
  | nil =>
    obtain ⟨e, he⟩ := h s
    exact ⟨e, by simp [processFields, he]⟩
  | cons g rest ih =>
    simp only [List.cons_append, processFields]
    cases hg : processFieldAttrs g s g.attrs with
    | error e => exact ⟨e, rfl⟩
    | ok t => exact ih t

/-- If the field pass fails from every state on the declared fields, the whole
derive fails. -/
theorem derive_error_of_fields_error (ast : DeriveInput) (fields : List Field)
    (hdata : ast.data = .namedStruct fields)
    (h : ∀ s, ∃ e, processFields s fields = .error e) :
    ∃ e, derive_as_bind_group ast = .error e := by
  unfold derive_as_bind_group
  cases hs : processStructAttrs initState ast.attrs with
  | error e => exact ⟨e, rfl⟩
  | ok s =>
    rw [hdata]
    obtain ⟨e, he⟩ := h s
    exact ⟨e, by simp [he]⟩

/-- Resizing the slot table with `Free` padding does not change reads that
default to `Free`. -/
theorem resizeStates_getD (l : List BindingState) (n i : Nat) :
    (resizeStates l n).getD i .Free = l.getD i .Free := by
  unfold resizeStates
  split
  · rcases Nat.lt_or_ge i l.length with hi | hi
    · simp only [List.getD, List.get?_eq_getElem?, List.getElem?_append_left hi]
    · have h1 : l.getD i BindingState.Free = .Free := by
        simp [List.getD, List.get?_eq_getElem?, List.getElem?_eq_none_iff.mpr hi]
      rw [h1]
      simp only [List.getD, List.get?_eq_getElem?, List.getElem?_append_right hi,
        List.getElem?_replicate]
      split
      · rfl
      · rfl
  · rfl

/-- The resized table is long enough to hold the written index. -/
theorem resizeStates_length (l : List BindingState) (n : Nat) :
    n ≤ (resizeStates l n).length := by
  unfold resizeStates
  split
  · simp only [List.length_append, List.length_replicate]
    omega
  · omega

/-- Reading back a slot just written. -/
theorem setState_getD_self (l : List BindingState) (i : Nat) (st : BindingState) :
    (setState l i st).getD i .Free = st := by
  unfold setState
  have hlen : i < (resizeStates l (i + 1)).length := by
    have := resizeStates_length l (i + 1)
    omega
  simp [List.getD, List.get?_eq_getElem?, List.getElem?_set_self hlen]

/-- Reading any other slot after a write. -/
theorem setState_getD_other (l : List BindingState) (i j : Nat) (st : BindingState)
    (h : j ≠ i) : (setState l i st).getD j .Free = l.getD j .Free := by
  unfold setState
  have h2 : ((resizeStates l (i + 1)).set i st).getD j BindingState.Free =
      (resizeStates l (i + 1)).getD j BindingState.Free := by
    simp [List.getD, List.get?_eq_getElem?, List.getElem?_set_ne (by omega : i ≠ j)]
  rw [h2, resizeStates_getD]

/-- C2 counterexample: a second aggregate-level converted-uniform declaration
at an already-occupied index is not a terminal error — the whole resolution
succeeds, the second declaration silently overwrites the slot state, and
duplicate entries for index 0 are emitted. -/
theorem c2_counterexample :
    derive_as_bind_group dupAggregateInput =
      .ok { field_struct_impls := [],
            binding_impls := [.convertedUniform "Ta", .convertedUniform "Tb"],
            bind_group_entries := [{ binding := 0, binding_vec_index := 0 },
                                   { binding := 0, binding_vec_index := 1 }],
            binding_layouts := [{ binding := 0, ty := .bufferUniform (.ofType "Ta") },
                                { binding := 0, ty := .bufferUniform (.ofType "Tb") }],
            prepared_data := "()" } := by
  decide

/-- C2 amended: for member-level declarations the claimed fail-fast behaviour
holds — once the struct-attribute pass, a prefix of the fields and a prefix of
the current field's attributes have resolved, a member declaration targeting a
slot that is `Occupied` or `ConvertedUniform`, or a non-uniform declaration
targeting a `MergeableUniform` slot, makes the whole resolution fail (so in
particular two non-uniform members at one index are rejected in either order);
aggregate-level converted-uniform declarations, however, are applied without
an occupancy check and never conflict with each other. -/
theorem c2_member_conflicts_fail (ast : DeriveInput) (fields fs1 fs2 : List Field)
    (f : Field) (as1 as2 : List FieldAttr) (a : FieldAttr) (n : String)
    (bt : BindingType) (i : Nat) (rest : List NestedMeta) (sA sB sC : ResolveState)
    (hdata : ast.data = .namedStruct fields) (hfields : fields = fs1 ++ f :: fs2)
    (hattrs : f.attrs = as1 ++ a :: as2)
    (hA : processStructAttrs initState ast.attrs = .ok sA)
    (hB : processFields sA fs1 = .ok sB)
    (hC : processFieldAttrs f sB as1 = .ok sC)
    (hname : a.name = some n) (hkind : fieldAttrKind n = some bt)
    (hmeta : get_binding_nested_meta a.meta = .ok (i, rest))
    (hconf : isOcc (getSt sC i) = true ∨ isCU (getSt sC i) = true ∨
      (isMerge (getSt sC i) = true ∧ bt ≠ .Uniform)) :
    ∃ e, derive_as_bind_group ast = .error e := by
  have hget : (resizeStates sC.binding_states (i + 1)).getD i .Free = getSt sC i :=
    resizeStates_getD _ _ _
  have hslot : ∃ e, applySlotTransition f bt i sC = .error e := by
    unfold applySlotTransition
    rw [hget]
    rcases hconf with hocc | hcu | ⟨hm, hbt⟩
    · cases hst : getSt sC i with
      | Occupied bt2 id2 => exact ⟨_, rfl⟩
      | Free => rw [hst] at hocc; simp [isOcc] at hocc
      | OccupiedConvertedUniform => rw [hst] at hocc; simp [isOcc] at hocc
      | OccupiedMergableUniform fs => rw [hst] at hocc; simp [isOcc] at hocc
    · cases hst : getSt sC i with
      | OccupiedConvertedUniform => exact ⟨_, rfl⟩
      | Free => rw [hst] at hcu; simp [isCU] at hcu
      | Occupied bt2 id2 => rw [hst] at hcu; simp [isCU] at hcu
      | OccupiedMergableUniform fs => rw [hst] at hcu; simp [isCU] at hcu
    · cases hst : getSt sC i with
      | OccupiedMergableUniform fs =>
        cases bt with
        | Uniform => exact absurd rfl hbt
        | Texture => exact ⟨_, rfl⟩
        | Sampler => exact ⟨_, rfl⟩
      | Free => rw [hst] at hm; simp [isMerge] at hm
      | Occupied bt2 id2 => rw [hst] at hm; simp [isMerge] at hm
      | OccupiedConvertedUniform => rw [hst] at hm; simp [isMerge] at hm
  obtain ⟨e0, he0⟩ := hslot
  have hstep : processFieldAttr f sC a = .error e0 := by
    unfold processFieldAttr
    simp only [hname, hkind, hmeta, he0]
  have hfattrs : ∃ e, processFieldAttrs f sB f.attrs = .error e := by
    rw [hattrs, processFieldAttrs_append, hC]
    exact ⟨e0, by simp [processFieldAttrs, hstep]⟩
  obtain ⟨e2, he2⟩ := hfattrs
  have hflds : ∃ e, processFields sA fields = .error e := by
    rw [hfields, processFields_append, hB]
    exact ⟨e2, by simp [processFields, he2]⟩
  obtain ⟨e3, he3⟩ := hflds
  refine ⟨e3, ?_⟩
  unfold derive_as_bind_group
  simp only [hA, hdata, he3]

/-- Witness for C2: two texture declarations at binding 0 on different fields;
the second transition targets an `Occupied` slot and the whole derive fails. -/
theorem c2_witness :
    ∃ e, derive_as_bind_group conflictInput = .error e := by
  refine c2_member_conflicts_fail conflictInput [fieldB, fieldC] [fieldB] [] fieldC
    [] [] texAttr0 "texture" .Texture 0 [] initState conflictMidState conflictMidState
    rfl rfl rfl rfl (by decide) rfl rfl (by decide) rfl ?_
  left
  decide

/-- If the struct-attribute pass fails, the whole derive fails. -/
theorem derive_error_of_struct_error (ast : DeriveInput)
    (h : ∃ e, processStructAttrs initState ast.attrs = .error e) :
    ∃ e, derive_as_bind_group ast = .error e := by
  obtain ⟨e, he⟩ := h
  refine ⟨e, ?_⟩
  unfold derive_as_bind_group
  simp only [he]

/-- C7 counterexample: a malformed extra-data (`bind_group_data`) declaration
does not terminate resolution — the parse failure is silently swallowed
(`if let Ok(..)`), resolution succeeds, and the `Data` type silently falls
back to the unit type. -/
theorem c7_counterexample :
    derive_as_bind_group malformedDataInput =
      .ok { field_struct_impls := [], binding_impls := [], bind_group_entries := [],
            binding_layouts := [], prepared_data := "()" } := by
  decide

/-- C7 amended: a malformed aggregate-level uniform declaration, and a member
binding declaration whose argument list is malformed, each terminate
resolution for the whole aggregate with an error wherever they occur; a
malformed `bind_group_data` declaration, however, is silently ignored and
leaves the state unchanged. -/
theorem c7_malformed_declarations (ast : DeriveInput) :
    (∀ l1 a l2, ast.attrs = l1 ++ a :: l2 → a.name = some "uniform" →
      parseStructUniformArgs a.tokens = none →
      ∃ e, derive_as_bind_group ast = .error e) ∧
    (∀ fields fs1 f fs2 as1 a as2 n bt err, ast.data = .namedStruct fields →
      fields = fs1 ++ f :: fs2 → f.attrs = as1 ++ a :: as2 → a.name = some n →
      fieldAttrKind n = some bt → get_binding_nested_meta a.meta = .error err →
      ∃ e, derive_as_bind_group ast = .error e) ∧
    (∀ s a, a.name = some "bind_group_data" → parseDataArgs a.tokens = none →
      processStructAttr s a = .ok s) := by
  refine ⟨?_, ?_, ?_⟩
  · intro l1 a l2 hsplit hname hparse
    have hstep : ∀ t, ∃ e, processStructAttr t a = .error e := by
      intro t
      unfold processStructAttr
      simp only [hname]
      rw [if_pos trivial, hparse]
      exact ⟨_, rfl⟩
    refine derive_error_of_struct_error ast ?_
    rw [hsplit]
    exact processStructAttrs_error_of_mem a hstep l1 l2 initState
  · intro fields fs1 f fs2 as1 a as2 n bt err hdata hfields hattrs hname hkind hmeta
    have hstep : ∀ t, ∃ e, processFieldAttr f t a = .error e := by
      intro t
      unfold processFieldAttr
      simp only [hname, hkind, hmeta]
      exact ⟨_, rfl⟩
    have hfield : ∀ t, ∃ e, processFieldAttrs f t f.attrs = .error e := by
      intro t
      rw [hattrs]
      exact processFieldAttrs_error_of_mem f a hstep as1 as2 t
    refine derive_error_of_fields_error ast fields hdata ?_
    intro s
    rw [hfields]
    exact processFields_error_of_mem f hfield fs1 fs2 s
  · intro s a hname hparse
    unfold processStructAttr
    simp only [hname]
    rw [if_pos trivial, hparse]

/-- Witness for C7: the malformed aggregate-level uniform declaration
(missing its converted shader type) makes the whole derive fail. -/
theorem c7_witness :
    ∃ e, derive_as_bind_group malformedStructUniformInput = .error e := by
  exact (c7_malformed_declarations malformedStructUniformInput).1 []
    { name := some "uniform", tokens := [.int 0] } [] rfl rfl rfl

/-- One well-formed meta never fails `texStep`, and its effect on the
`filterable` and `sample_type` accumulator fields is the corresponding fold
step. -/
theorem texStep_wf (acc : TexAcc) (m : NestedMeta) (hm : texMetaWF m = true) :
    ∃ acc', texStep acc m = .ok acc' ∧
      acc'.filterable = filtStep acc.filterable m ∧
      acc'.sample_type = sampleStep acc.sample_type m := by
  cases m with
  | lit l => simp [texMetaWF] at hm
  | otherMeta => simp [texMetaWF] at hm
  | nameValue n l =>
    cases l with
    | int k => simp [texMetaWF] at hm
    | str s =>
      by_cases hn : n = "dimension"
      · subst hn
        have hdim : dimOk s = true := by simpa [texMetaWF] using hm
        obtain ⟨d, hd⟩ : ∃ d, get_texture_dimension_value s = .ok d := by
          unfold dimOk at hdim
          cases hds : get_texture_dimension_value s with
          | ok d => exact ⟨d, rfl⟩
          | error e => rw [hds] at hdim; simp at hdim
        refine ⟨{ acc with dimension := d }, ?_, ?_, ?_⟩
        · have hred : texStep acc (.nameValue "dimension" (.str s)) =
              Except.bind (get_texture_dimension_value s)
                (fun d => Except.ok { acc with dimension := d }) := rfl
          rw [hred, hd]
          rfl
        · simp [filtStep]
        · simp [sampleStep]
      · by_cases hn2 : n = "sample_type"
        · subst hn2
          have hsam : sampleOk s = true := by simpa [texMetaWF, hn] using hm
          obtain ⟨v, hv⟩ : ∃ v, get_texture_sample_type_value s = .ok v := by
            unfold sampleOk at hsam
            cases hvs : get_texture_sample_type_value s with
            | ok v => exact ⟨v, rfl⟩
            | error e => rw [hvs] at hsam; simp at hsam
          refine ⟨{ acc with sample_type := v }, ?_, ?_, ?_⟩
          · have hred : texStep acc (.nameValue "sample_type" (.str s)) =
              Except.bind (get_texture_sample_type_value s)
                (fun v => Except.ok { acc with sample_type := v }) := rfl
            rw [hred, hv]
            rfl
          · simp [filtStep]
          · simp [sampleStep, hv]
        · simp [texMetaWF, hn, hn2] at hm
    | boolean b =>
      by_cases hn : n = "multisampled"
      · subst hn
        refine ⟨{ acc with multisampled := b }, ?_, ?_, ?_⟩
        · rfl
        · simp [filtStep]
        · simp [sampleStep]
      · by_cases hn2 : n = "filterable"
        · subst hn2
          refine ⟨{ acc with filterable := some b }, ?_, ?_, ?_⟩
          · rfl
          · simp [filtStep]
          · simp [sampleStep]
        · simp [texMetaWF, hn, hn2] at hm

/-- The meta loop never fails on well-formed metas, and its `filterable` and
`sample_type` results are the last-wins folds. -/
theorem texLoop_wf (metas : List NestedMeta) : ∀ acc : TexAcc,
    (∀ m ∈ metas, texMetaWF m = true) →
    ∃ acc', texLoop acc metas = .ok acc' ∧
      acc'.filterable = lastFilterableFrom acc.filterable metas ∧
      acc'.sample_type = lastSampleFrom acc.sample_type metas := by
  induction metas with
  | nil => exact fun acc _ => ⟨acc, rfl, rfl, rfl⟩
  | cons m ms ih =>
    intro acc h
    obtain ⟨acc1, hs, hf1, hsam1⟩ := texStep_wf acc m (h m (List.mem_cons_self m ms))
    obtain ⟨acc', hl, hf2, hsam2⟩ := ih acc1 (fun x hx => h x (List.mem_cons_of_mem m hx))
    refine ⟨acc', ?_, ?_, ?_⟩
    · simp [texLoop, hs, hl]
    · rw [hf2, hf1]
      rfl
    · rw [hsam2, hsam1]
      rfl

/-- C6: for every well-formed texture meta list containing a `filterable` key
(last value `b`), parsing fails with the post-pass error exactly when the
resolved sample type (last `sample_type` key in any position, defaulting to
float when omitted) is not float; when it is float (or omitted), parsing
succeeds and the float variant's filterable flag equals `b` — irrespective of
where `filterable` appears relative to `sample_type`. -/
theorem c6_filterable_postpass (metas : List NestedMeta) (b : Bool)
    (hwf : ∀ m ∈ metas, texMetaWF m = true)
    (hf : lastFilterableFrom none metas = some b) :
    (isFloatSt (lastSampleFrom default metas) = true →
      ∃ ta, get_texture_attrs metas = .ok ta ∧ ta.sample_type = .Float b) ∧
    (isFloatSt (lastSampleFrom default metas) = false →
      get_texture_attrs metas = .error filterableErrMsg) := by
  obtain ⟨acc', h1, h2, h3⟩ := texLoop_wf metas
    { dimension := default, sample_type := default, multisampled := default,
      filterable := none } hwf
  have hfb : acc'.filterable = some b := by rw [h2]; exact hf
  have hsam : acc'.sample_type = lastSampleFrom default metas := h3
  constructor
  · intro hfl
    unfold get_texture_attrs
    simp only [h1, hfb]
    cases hst : acc'.sample_type with
    | Float c =>
      exact ⟨_, rfl, rfl⟩
    | Depth => rw [hst] at hsam; rw [← hsam] at hfl; simp [isFloatSt] at hfl
    | Sint => rw [hst] at hsam; rw [← hsam] at hfl; simp [isFloatSt] at hfl
    | Uint => rw [hst] at hsam; rw [← hsam] at hfl; simp [isFloatSt] at hfl
  · intro hfl
    unfold get_texture_attrs
    simp only [h1, hfb]
    cases hst : acc'.sample_type with
    | Float c => rw [hst] at hsam; rw [← hsam] at hfl; simp [isFloatSt] at hfl
    | Depth => rfl
    | Sint => rfl
    | Uint => rfl

/-- Witness for C6: `filterable = false` before `sample_type = "float"` is
accepted with the declared flag; the same `filterable` with a depth sample
type is rejected (evaluated directly). -/
theorem c6_witness :
    (∃ ta, get_texture_attrs [.nameValue "filterable" (.boolean false),
        .nameValue "sample_type" (.str "float")] = .ok ta ∧
      ta.sample_type = .Float false) := by
  exact (c6_filterable_postpass
    [.nameValue "filterable" (.boolean false), .nameValue "sample_type" (.str "float")]
    false (by decide) (by decide)).1 (by decide)

/-- Case characterization of one struct-attribute step: it either leaves the
slot table and the three emission vectors unchanged, or it is a well-formed
struct-level uniform declaration that appends one element to each vector and
overwrites its slot unconditionally. -/
theorem processStructAttr_cases (s : ResolveState) (a : StructAttr) (t : ResolveState)
    (hok : processStructAttr s a = .ok t) :
    (structUniformIndices [a] = [] ∧ t.binding_states = s.binding_states ∧
      t.binding_impls = s.binding_impls ∧ t.bind_group_entries = s.bind_group_entries ∧
      t.binding_layouts = s.binding_layouts) ∨
    (∃ i ty, structUniformIndices [a] = [i] ∧
      t = { s with
        binding_impls := s.binding_impls ++ [.convertedUniform ty],
        binding_layouts := s.binding_layouts ++
          [{ binding := i, ty := .bufferUniform (.ofType ty) }],
        bind_group_entries := s.bind_group_entries ++
          [{ binding := i, binding_vec_index := s.bind_group_entries.length }],
        binding_states := setState s.binding_states i .OccupiedConvertedUniform }) := by
  unfold processStructAttr at hok
  cases hname : a.name with
  | none =>
    rw [hname] at hok
    cases hok
    exact Or.inl ⟨by simp [structUniformIndices, hname], rfl, rfl, rfl, rfl⟩
  | some n =>
    rw [hname] at hok
    simp only at hok
    by_cases hbgd : n = "bind_group_data"
    · rw [if_pos hbgd] at hok
      cases hparse : parseDataArgs a.tokens with
      | some p =>
        rw [hparse] at hok
        cases hok
        refine Or.inl ⟨?_, rfl, rfl, rfl, rfl⟩
        simp [structUniformIndices, hname, hbgd]
      | none =>
        rw [hparse] at hok
        cases hok
        refine Or.inl ⟨?_, rfl, rfl, rfl, rfl⟩
        simp [structUniformIndices, hname, hbgd]
    · rw [if_neg hbgd] at hok
      by_cases huni : n = "uniform"
      · rw [if_pos huni] at hok
        cases hparse : parseStructUniformArgs a.tokens with
        | none => rw [hparse] at hok; exact absurd hok (by simp)
        | some p =>
          obtain ⟨i, ty⟩ := p
          rw [hparse] at hok
          cases hok
          refine Or.inr ⟨i, ty, ?_, rfl⟩
          simp [structUniformIndices, hname, huni, hparse]
      · rw [if_neg huni] at hok
        cases hok
        refine Or.inl ⟨?_, rfl, rfl, rfl, rfl⟩
        simp [structUniformIndices, hname, huni]

/-- Case characterization of one field-attribute step on a successful run:
either the attribute is not a binding attribute and the state is unchanged, or
it is a uniform declaration merging into a free or mergeable slot, or it is a
non-uniform declaration occupying a free slot and appending one entry, one
resource construction and one layout entry. -/
theorem processFieldAttr_cases (f : Field) (s : ResolveState) (a : FieldAttr)
    (t : ResolveState) (hok : processFieldAttr f s a = .ok t) :
    (declOfAttr a = [] ∧ t = s) ∨
    (∃ i, declOfAttr a = [(BindingType.Uniform, i)] ∧
      ((getSt s i = .Free ∧ t = { s with
          binding_states := setState s.binding_states i (.OccupiedMergableUniform [f]) }) ∨
       (∃ fs, getSt s i = .OccupiedMergableUniform fs ∧ t = { s with
          binding_states := setState s.binding_states i
            (.OccupiedMergableUniform (fs ++ [f])) }))) ∨
    (∃ bt i lty, bt ≠ BindingType.Uniform ∧ declOfAttr a = [(bt, i)] ∧ getSt s i = .Free ∧
      t = { s with
        binding_states := setState s.binding_states i (.Occupied bt f.name),
        bind_group_entries := s.bind_group_entries ++
          [{ binding := i, binding_vec_index := s.bind_group_entries.length }],
        binding_impls := s.binding_impls ++ [nonUniformImpl bt f],
        binding_layouts := s.binding_layouts ++ [{ binding := i, ty := lty }] }) := by
  unfold processFieldAttr at hok
  cases hname : a.name with
  | none => rw [hname] at hok; exact absurd hok (by simp)
  | some n =>
    rw [hname] at hok
    simp only at hok
    cases hkind : fieldAttrKind n with
    | none =>
      rw [hkind] at hok
      cases hok
      exact Or.inl ⟨by simp [declOfAttr, hname, hkind], rfl⟩
    | some bt =>
      rw [hkind] at hok
      cases hmeta : get_binding_nested_meta a.meta with
      | error e => rw [hmeta] at hok; exact absurd hok (by simp)
      | ok p =>
        obtain ⟨i, rest⟩ := p
        rw [hmeta] at hok
        simp only at hok
        have hdecl : declOfAttr a = [(bt, i)] := by
          simp [declOfAttr, hname, hkind, hmeta]
        unfold applySlotTransition at hok
        rw [resizeStates_getD] at hok
        cases hst : s.binding_states.getD i .Free with
        | Free =>
          rw [hst] at hok
          cases bt with
          | Uniform =>
            simp only at hok
            unfold applyKindCodegen at hok
            cases hok
            exact Or.inr (Or.inl ⟨i, hdecl, Or.inl ⟨hst, rfl⟩⟩)
          | Texture =>
            simp only at hok
            unfold applyKindCodegen at hok
            cases hta : get_texture_attrs rest with
            | error e => rw [hta] at hok; exact absurd hok (by simp)
            | ok ta =>
              rw [hta] at hok
              cases hok
              refine Or.inr (Or.inr ⟨.Texture, i,
                .texture ta.multisampled ta.sample_type ta.dimension, by simp, hdecl, hst, ?_⟩)
              rfl
          | Sampler =>
            simp only at hok
            unfold applyKindCodegen at hok
            cases hsa : get_sampler_attrs rest with
            | error e => rw [hsa] at hok; exact absurd hok (by simp)
            | ok sa =>
              rw [hsa] at hok
              cases hok
              refine Or.inr (Or.inr ⟨.Sampler, i,
                .samplerTy sa.sampler_binding_type, by simp, hdecl, hst, ?_⟩)
              rfl
        | Occupied bt2 id2 => rw [hst] at hok; exact absurd hok (by simp)
        | OccupiedConvertedUniform => rw [hst] at hok; exact absurd hok (by simp)
        | OccupiedMergableUniform fs =>
          rw [hst] at hok
          cases bt with
          | Uniform =>
            simp only at hok
            unfold applyKindCodegen at hok
            cases hok
            exact Or.inr (Or.inl ⟨i, hdecl, Or.inr ⟨fs, hst, rfl⟩⟩)
          | Texture => simp only at hok; exact absurd hok (by simp)
          | Sampler => simp only at hok; exact absurd hok (by simp)

/-- One mergeable slot's emission, in closed form. -/
theorem emitMergedSlot_merge (nm : String) (acc : EmitAcc) (k : Nat) (fs : List Field) :
    emitMergedSlot nm acc k (.OccupiedMergableUniform fs) =
      { field_struct_impls := acc.field_struct_impls ++ mergedSlotStructs nm k fs,
        binding_impls := acc.binding_impls ++ [mergedSlotImpl nm k fs],
        bind_group_entries := acc.bind_group_entries ++
          [{ binding := k, binding_vec_index := acc.bind_group_entries.length }],
        binding_layouts := acc.binding_layouts ++ [mergedSlotLayout nm k fs] } := by
  match fs with
  | [] => rfl
  | [f] => simp [emitMergedSlot, mergedSlotStructs, mergedSlotImpl, mergedSlotLayout]
  | f :: g :: rest => rfl

/-- The whole second pass, in closed form: each output vector is the input
vector extended by the per-slot emissions in ascending slot order. -/
theorem emitMergedSlots_spec (nm : String) (sts : List BindingState) :
    ∀ (acc : EmitAcc) (k : Nat), emitMergedSlots nm acc k sts =
      { field_struct_impls := acc.field_struct_impls ++ mergedStructsFrom nm k sts,
        binding_impls := acc.binding_impls ++ mergedImplsFrom nm k sts,
        bind_group_entries := acc.bind_group_entries ++
          mergedEntriesFrom acc.bind_group_entries.length k sts,
        binding_layouts := acc.binding_layouts ++ mergedLayoutsFrom nm k sts } := by
  induction sts with
  | nil =>
    intro acc k
    simp [emitMergedSlots, mergedStructsFrom, mergedImplsFrom, mergedEntriesFrom,
      mergedLayoutsFrom]
  | cons st rest ih =>
    intro acc k
    cases st with
    | OccupiedMergableUniform fs =>
      have hstep := emitMergedSlot_merge nm acc k fs
      calc emitMergedSlots nm acc k (.OccupiedMergableUniform fs :: rest) =
          emitMergedSlots nm (emitMergedSlot nm acc k (.OccupiedMergableUniform fs))
            (k + 1) rest := rfl
        _ = _ := by
          rw [hstep, ih]
          simp [mergedStructsFrom, mergedImplsFrom, mergedEntriesFrom, mergedLayoutsFrom]
    | Free =>
      calc emitMergedSlots nm acc k (.Free :: rest) = emitMergedSlots nm acc (k + 1) rest := rfl
        _ = _ := by
          rw [ih]
          simp [mergedStructsFrom, mergedImplsFrom, mergedEntriesFrom, mergedLayoutsFrom]
    | Occupied bt id =>
      calc emitMergedSlots nm acc k (.Occupied bt id :: rest) =
          emitMergedSlots nm acc (k + 1) rest := rfl
        _ = _ := by
          rw [ih]
          simp [mergedStructsFrom, mergedImplsFrom, mergedEntriesFrom, mergedLayoutsFrom]
    | OccupiedConvertedUniform =>
      calc emitMergedSlots nm acc k (.OccupiedConvertedUniform :: rest) =
          emitMergedSlots nm acc (k + 1) rest := rfl
        _ = _ := by
          rw [ih]
          simp [mergedStructsFrom, mergedImplsFrom, mergedEntriesFrom, mergedLayoutsFrom]

/-- Pushing one construction and one entry capturing the current length
preserves the alignment invariant. -/
theorem EntriesOk.push {impls : List BindingImpl} {entries : List BindGroupEntry}
    (h : EntriesOk impls entries) (b : BindingImpl) (i : Nat) :
    EntriesOk (impls ++ [b])
      (entries ++ [{ binding := i, binding_vec_index := entries.length }]) := by
  obtain ⟨hlen, hidx⟩ := h
  constructor
  · simp [hlen]
  · intro k e hk
    rcases Nat.lt_trichotomy k entries.length with hlt | heq | hgt
    · rw [List.getElem?_append_left hlt] at hk
      exact hidx k e hk
    · subst heq
      rw [List.getElem?_append_right (le_refl _)] at hk
      simp at hk
      rw [← hk]
    · rw [List.getElem?_eq_none_iff.mpr (by simp; omega)] at hk
      exact absurd hk (by simp)

/-- The struct-attribute loop preserves the alignment invariant. -/
theorem EntriesOk_processStructAttrs : ∀ (attrs : List StructAttr) (s t : ResolveState),
    processStructAttrs s attrs = .ok t →
    EntriesOk s.binding_impls s.bind_group_entries →
    EntriesOk t.binding_impls t.bind_group_entries := by
  intro attrs
  induction attrs with
  | nil => intro s t hok h; cases hok; exact h
  | cons a rest ih =>
    intro s t hok h
    unfold processStructAttrs at hok
    cases ha : processStructAttr s a with
    | error e => rw [ha] at hok; exact absurd hok (by simp)
    | ok s1 =>
      rw [ha] at hok
      refine ih s1 t hok ?_
      rcases processStructAttr_cases s a s1 ha with
        ⟨_, _, hi, he, _⟩ | ⟨i, ty, _, hrec⟩
      · rw [hi, he]; exact h
      · rw [hrec]; exact h.push _ i

/-- One field-attribute step preserves the alignment invariant. -/
theorem EntriesOk_processFieldAttr (f : Field) (s : ResolveState) (a : FieldAttr)
    (t : ResolveState) (hok : processFieldAttr f s a = .ok t)
    (h : EntriesOk s.binding_impls s.bind_group_entries) :
    EntriesOk t.binding_impls t.bind_group_entries := by
  rcases processFieldAttr_cases f s a t hok with
    ⟨_, ht⟩ | ⟨i, _, ⟨_, ht⟩ | ⟨fs, _, ht⟩⟩ | ⟨bt, i, lty, _, _, _, ht⟩
  · rw [ht]; exact h
  · rw [ht]; exact h
  · rw [ht]; exact h
  · rw [ht]; exact h.push _ i

/-- The field loop preserves the alignment invariant. -/
theorem EntriesOk_processFields : ∀ (fields : List Field) (s t : ResolveState),
    processFields s fields = .ok t →
    EntriesOk s.binding_impls s.bind_group_entries →
    EntriesOk t.binding_impls t.bind_group_entries := by
  have hattrs : ∀ (f : Field) (attrs : List FieldAttr) (s t : ResolveState),
      processFieldAttrs f s attrs = .ok t →
      EntriesOk s.binding_impls s.bind_group_entries →
      EntriesOk t.binding_impls t.bind_group_entries := by
    intro f attrs
    induction attrs with
    | nil => intro s t hok h; cases hok; exact h
    | cons a rest ih =>
      intro s t hok h
      unfold processFieldAttrs at hok
      cases ha : processFieldAttr f s a with
      | error e => rw [ha] at hok; exact absurd hok (by simp)
      | ok s1 =>
        rw [ha] at hok
        exact ih s1 t hok (EntriesOk_processFieldAttr f s a s1 ha h)
  intro fields
  induction fields with
  | nil => intro s t hok h; cases hok; exact h
  | cons f rest ih =>
    intro s t hok h
    unfold processFields at hok
    cases hf : processFieldAttrs f s f.attrs with
    | error e => rw [hf] at hok; exact absurd hok (by simp)
    | ok s1 =>
      rw [hf] at hok
      exact ih s1 t hok (hattrs f f.attrs s s1 hf h)

/-- The second pass preserves the alignment invariant. -/
theorem EntriesOk_merged (nm : String) : ∀ (sts : List BindingState) (k : Nat)
    (impls : List BindingImpl) (entries : List BindGroupEntry),
    EntriesOk impls entries →
    EntriesOk (impls ++ mergedImplsFrom nm k sts)
      (entries ++ mergedEntriesFrom entries.length k sts) := by
  intro sts
  induction sts with
  | nil =>
    intro k impls entries h
    simpa [mergedImplsFrom, mergedEntriesFrom] using h
  | cons st rest ih =>
    intro k impls entries h
    cases st with
    | OccupiedMergableUniform fs =>
      have hpush := h.push (mergedSlotImpl nm k fs) k
      have := ih (k + 1) (impls ++ [mergedSlotImpl nm k fs])
        (entries ++ [{ binding := k, binding_vec_index := entries.length }]) hpush
      simp only [List.length_append, List.length_cons, List.length_nil] at this
      simpa [mergedImplsFrom, mergedEntriesFrom, List.append_assoc] using this
    | Free =>
      simpa [mergedImplsFrom, mergedEntriesFrom] using ih (k + 1) impls entries h
    | Occupied bt id =>
      simpa [mergedImplsFrom, mergedEntriesFrom] using ih (k + 1) impls entries h
    | OccupiedConvertedUniform =>
      simpa [mergedImplsFrom, mergedEntriesFrom] using ih (k + 1) impls entries h

/-- Inversion of a successful derive: the intermediate resolver states exist
and each output vector is the field-pass vector extended by the second-pass
emissions. -/
theorem derive_ok_inversion (ast : DeriveInput) (out : Output)
    (hok : derive_as_bind_group ast = .ok out) :
    ∃ s s2 fields, processStructAttrs initState ast.attrs = .ok s ∧
      ast.data = .namedStruct fields ∧ processFields s fields = .ok s2 ∧
      out.field_struct_impls = mergedStructsFrom ast.ident 0 s2.binding_states ∧
      out.binding_impls = s2.binding_impls ++ mergedImplsFrom ast.ident 0 s2.binding_states ∧
      out.bind_group_entries = s2.bind_group_entries ++
        mergedEntriesFrom s2.bind_group_entries.length 0 s2.binding_states ∧
      out.binding_layouts = s2.binding_layouts ++
        mergedLayoutsFrom ast.ident 0 s2.binding_states := by
  unfold derive_as_bind_group at hok
  cases hs : processStructAttrs initState ast.attrs with
  | error e => rw [hs] at hok; exact absurd hok (by simp)
  | ok s =>
    rw [hs] at hok
    simp only at hok
    cases hdata : ast.data with
    | otherData => rw [hdata] at hok; exact absurd hok (by simp)
    | namedStruct fields =>
      rw [hdata] at hok
      simp only at hok
      cases hf : processFields s fields with
      | error e => rw [hf] at hok; exact absurd hok (by simp)
      | ok s2 =>
        rw [hf] at hok
        simp only [emitMergedSlots_spec] at hok
        cases hok
        exact ⟨s, s2, fields, rfl, rfl, hf, by simp, by simp, by simp, by simp⟩

/-- C10: after every successful resolution the construction vector and the
entry vector have the same length, and the `k`-th entry's resource expression
references exactly `bindings[k]` — the vector index captured at emission time
equals the position of the matching construction. -/
theorem c10_entries_reference_matching_bindings (ast : DeriveInput) (out : Output)
    (hok : derive_as_bind_group ast = .ok out) :
    out.binding_impls.length = out.bind_group_entries.length ∧
    ∀ (k : Nat) (e : BindGroupEntry), out.bind_group_entries[k]? = some e →
      e.binding_vec_index = k := by
  obtain ⟨s, s2, fields, hs, hdata, hf, _, himpls, hentries, _⟩ :=
    derive_ok_inversion ast out hok
  have h0 : EntriesOk initState.binding_impls initState.bind_group_entries := by
    constructor
    · rfl
    · intro k e hk
      simp [initState] at hk
  have h1 := EntriesOk_processStructAttrs ast.attrs initState s hs h0
  have h2 := EntriesOk_processFields fields s s2 hf h1
  have h3 := EntriesOk_merged ast.ident s2.binding_states 0
    s2.binding_impls s2.bind_group_entries h2
  rw [himpls, hentries]
  exact h3

/-- Witness for C10 at the duplicate-aggregate input (which resolves
successfully): lengths agree and each entry captures its own position. -/
theorem c10_witness :
    derive_as_bind_group dupAggregateInput =
      .ok { field_struct_impls := [],
            binding_impls := [.convertedUniform "Ta", .convertedUniform "Tb"],
            bind_group_entries := [{ binding := 0, binding_vec_index := 0 },
                                   { binding := 0, binding_vec_index := 1 }],
            binding_layouts := [{ binding := 0, ty := .bufferUniform (.ofType "Ta") },
                                { binding := 0, ty := .bufferUniform (.ofType "Tb") }],
            prepared_data := "()" } ∧
    (2 : Nat) = 2 := by
  have hok : derive_as_bind_group dupAggregateInput =
      .ok { field_struct_impls := [],
            binding_impls := [.convertedUniform "Ta", .convertedUniform "Tb"],
            bind_group_entries := [{ binding := 0, binding_vec_index := 0 },
                                   { binding := 0, binding_vec_index := 1 }],
            binding_layouts := [{ binding := 0, ty := .bufferUniform (.ofType "Ta") },
                                { binding := 0, ty := .bufferUniform (.ofType "Tb") }],
            prepared_data := "()" } := by decide
  have h := c10_entries_reference_matching_bindings dupAggregateInput _ hok
  exact ⟨hok, h.1⟩

/-- Each mergeable slot of the table contributes its layout entry to the
second pass's emission. -/
theorem mergedLayoutsFrom_mem (nm : String) : ∀ (sts : List BindingState) (k i : Nat)
    (fs : List Field), sts[i]? = some (.OccupiedMergableUniform fs) →
    mergedSlotLayout nm (k + i) fs ∈ mergedLayoutsFrom nm k sts := by
  intro sts
  induction sts with
  | nil => intro k i fs h; simp at h
  | cons st rest ih =>
    intro k i fs h
    cases i with
    | zero =>
      simp at h
      subst h
      simp [mergedLayoutsFrom]
    | succ j =>
      have hj : rest[j]? = some (.OccupiedMergableUniform fs) := by simpa using h
      have := ih (k + 1) j fs hj
      have harith : k + (j + 1) = (k + 1) + j := by omega
      rw [harith]
      cases st with
      | OccupiedMergableUniform gs => exact List.mem_cons_of_mem _ this
      | Free => exact this
      | Occupied bt id => exact this
      | OccupiedConvertedUniform => exact this

/-- Each mergeable slot's synthesized struct declarations are contributed to
the second pass's emission. -/
theorem mergedStructsFrom_mem (nm : String) : ∀ (sts : List BindingState) (k i : Nat)
    (fs : List Field) (x : FieldStructImpl), sts[i]? = some (.OccupiedMergableUniform fs) →
    x ∈ mergedSlotStructs nm (k + i) fs → x ∈ mergedStructsFrom nm k sts := by
  intro sts
  induction sts with
  | nil => intro k i fs x h _; simp at h
  | cons st rest ih =>
    intro k i fs x h hx
    cases i with
    | zero =>
      simp at h
      subst h
      simp only [mergedStructsFrom]
      exact List.mem_append_left _ (by simpa using hx)
    | succ j =>
      have hj : rest[j]? = some (.OccupiedMergableUniform fs) := by simpa using h
      have harith : k + (j + 1) = (k + 1) + j := by omega
      rw [harith] at hx
      have := ih (k + 1) j fs x hj hx
      cases st with
      | OccupiedMergableUniform gs => exact List.mem_append_right _ this
      | Free => exact this
      | Occupied bt id => exact this
      | OccupiedConvertedUniform => exact this

/-- C5: uniform members merge without error — a uniform declaration targeting
a free or mergeable slot always succeeds — and every slot holding two or more
merged uniform members emits a layout entry whose minimum binding size is that
of the synthesized record type, declared with exactly one field per merged
member, with the members' names and types in member-declaration order. -/
theorem c5_uniforms_merge_and_synthesize :
    (∀ (f : Field) (s : ResolveState) (a : FieldAttr) (i : Nat) (rest : List NestedMeta),
      a.name = some "uniform" → get_binding_nested_meta a.meta = .ok (i, rest) →
      (getSt s i = .Free ∨ isMerge (getSt s i) = true) →
      ∃ t, processFieldAttr f s a = .ok t) ∧
    (∀ (f : Field) (s t : ResolveState) (a : FieldAttr) (i : Nat) (rest : List NestedMeta)
      (fs : List Field),
      a.name = some "uniform" → get_binding_nested_meta a.meta = .ok (i, rest) →
      getSt s i = .OccupiedMergableUniform fs →
      processFieldAttr f s a = .ok t →
      getSt t i = .OccupiedMergableUniform (fs ++ [f])) ∧
    (∀ (ast : DeriveInput) (out : Output) (s s2 : ResolveState) (fields : List Field)
      (i : Nat) (fs : List Field),
      derive_as_bind_group ast = .ok out →
      processStructAttrs initState ast.attrs = .ok s →
      ast.data = .namedStruct fields →
      processFields s fields = .ok s2 →
      s2.binding_states[i]? = some (.OccupiedMergableUniform fs) →
      2 ≤ fs.length →
      ({ binding := i,
         ty := .bufferUniform (.ofStruct (uniformStructName ast.ident i)) } : BindGroupLayoutEntry)
        ∈ out.binding_layouts ∧
      ({ struct_name := uniformStructName ast.ident i,
         fields := fs.map (fun f => (f.name, f.ty)) } : FieldStructImpl)
        ∈ out.field_struct_impls) := by
  refine ⟨?_, ?_, ?_⟩
  · intro f s a i rest hname hmeta hslot
    unfold processFieldAttr
    rw [hname]
    simp only [show fieldAttrKind "uniform" = some BindingType.Uniform from rfl, hmeta]
    unfold applySlotTransition
    rw [resizeStates_getD]
    rcases hslot with hfree | hmerge
    · rw [show s.binding_states.getD i BindingState.Free = .Free from hfree]
      exact ⟨_, rfl⟩
    · cases hst : s.binding_states.getD i .Free with
      | OccupiedMergableUniform fs => exact ⟨_, rfl⟩
      | Free => exact ⟨_, rfl⟩
      | Occupied bt id =>
        rw [show getSt s i = _ from hst] at hmerge
        simp [isMerge] at hmerge
      | OccupiedConvertedUniform =>
        rw [show getSt s i = _ from hst] at hmerge
        simp [isMerge] at hmerge
  · intro f s t a i rest fs hname hmeta hst hok
    have hdecl : declOfAttr a = [(BindingType.Uniform, i)] := by
      simp [declOfAttr, hname, hmeta, fieldAttrKind]
    rcases processFieldAttr_cases f s a t hok with
      ⟨hd, _⟩ | ⟨i2, hd, hcase⟩ | ⟨bt, i2, lty, hbt, hd, _, _⟩
    · rw [hdecl] at hd
      exact absurd hd (by simp)
    · rw [hdecl] at hd
      simp only [List.cons.injEq, Prod.mk.injEq] at hd
      obtain ⟨⟨_, hi⟩, _⟩ := hd
      subst hi
      rcases hcase with ⟨hfree, _⟩ | ⟨fs2, hst2, ht⟩
      · rw [hst] at hfree
        exact absurd hfree (by simp)
      · rw [hst] at hst2
        have hfs : fs = fs2 := BindingState.OccupiedMergableUniform.inj hst2
        subst hfs
        subst ht
        show (setState s.binding_states i
          (BindingState.OccupiedMergableUniform (fs ++ [f]))).getD i .Free = _
        exact setState_getD_self _ _ _
    · rw [hdecl] at hd
      simp only [List.cons.injEq, Prod.mk.injEq] at hd
      exact absurd hd.1.1.symm hbt
  · intro ast out s s2 fields i fs hok hs hdata hf hslot hlen
    obtain ⟨s', s2', fields', hs', hdata', hf', hstructs, _, _, hlayouts⟩ :=
      derive_ok_inversion ast out hok
    have hseq : s = s' := Except.ok.inj (hs.symm.trans hs')
    subst hseq
    have hfeq : fields = fields' := StructData.namedStruct.inj (hdata.symm.trans hdata')
    subst hfeq
    have hs2eq : s2 = s2' := Except.ok.inj (hf.symm.trans hf')
    subst hs2eq
    have hsl : mergedSlotLayout ast.ident i fs =
        { binding := i,
          ty := .bufferUniform (.ofStruct (uniformStructName ast.ident i)) } := by
      match fs, hlen with
      | f :: g :: rest, _ => rfl
    have hss : mergedSlotStructs ast.ident i fs =
        [{ struct_name := uniformStructName ast.ident i,
           fields := fs.map (fun f => (f.name, f.ty)) }] := by
      match fs, hlen with
      | f :: g :: rest, _ => rfl
    constructor
    · rw [hlayouts]
      refine List.mem_append_right _ ?_
      have := mergedLayoutsFrom_mem ast.ident s2.binding_states 0 i fs hslot
      rw [Nat.zero_add] at this
      rw [← hsl]
      exact this
    · rw [hstructs]
      refine mergedStructsFrom_mem ast.ident s2.binding_states 0 i fs _ hslot ?_
      rw [Nat.zero_add, hss]
      exact List.mem_singleton_self _

/-- Witness for C5: two uniform members at index 0 merge, resolution succeeds
and the emitted layout and synthesized record are as the theorem states. -/
theorem c5_witness :
    ({ binding := 0,
       ty := .bufferUniform (.ofStruct (uniformStructName "M" 0)) } : BindGroupLayoutEntry)
      ∈ mergedUniformOutput.binding_layouts ∧
    ({ struct_name := uniformStructName "M" 0,
       fields := [("a", "f32"), ("d", "f32")] } : FieldStructImpl)
      ∈ mergedUniformOutput.field_struct_impls := by
  have h := c5_uniforms_merge_and_synthesize.2.2 mergedUniformInput mergedUniformOutput
    initState mergedUniformMidState [fieldA, fieldD] 0 [fieldA, fieldD]
    (by rfl) rfl rfl (by rfl) (by rfl) (by simp)
  exact h

/-- Splitting a `filterMap` across a cons into singleton plus rest. -/
theorem filterMap_cons_append {α β : Type _} (g : α → Option β) (a : α) (l : List α) :
    List.filterMap g (a :: l) = List.filterMap g [a] ++ List.filterMap g l := by
  cases hga : g a <;> simp [List.filterMap_cons, hga]

/-- Every slot state is free, occupied, converted or mergeable. -/
theorem state_cases (st : BindingState) :
    st = .Free ∨ isOcc st = true ∨ isCU st = true ∨ isMerge st = true := by
  cases st with
  | Free => exact Or.inl rfl
  | Occupied bt id => exact Or.inr (Or.inl rfl)
  | OccupiedConvertedUniform => exact Or.inr (Or.inr (Or.inl rfl))
  | OccupiedMergableUniform fs => exact Or.inr (Or.inr (Or.inr rfl))

/-- A state that is neither occupied, converted nor mergeable is free. -/
theorem free_of_not (st : BindingState) (h1 : ¬ isOcc st = true) (h2 : ¬ isCU st = true)
    (h3 : ¬ isMerge st = true) : st = .Free := by
  rcases state_cases st with h | h | h | h
  · exact h
  · exact absurd h h1
  · exact absurd h h2
  · exact absurd h h3

/-- `nuIdx` distributes over append. -/
theorem nuIdx_append (ds1 ds2 : List (BindingType × Nat)) :
    nuIdx (ds1 ++ ds2) = nuIdx ds1 ++ nuIdx ds2 := by
  simp [nuIdx, List.filterMap_append]

/-- `uIdx` distributes over append. -/
theorem uIdx_append (ds1 ds2 : List (BindingType × Nat)) :
    uIdx (ds1 ++ ds2) = uIdx ds1 ++ uIdx ds2 := by
  simp [uIdx, List.filterMap_append]

/-- Reading the slot table after one write. -/
theorem getSt_set (s : ResolveState) (i : Nat) (st : BindingState) (j : Nat) :
    (setState s.binding_states i st).getD j .Free = if j = i then st else getSt s j := by
  by_cases h : j = i
  · subst h
    rw [if_pos rfl]
    exact setState_getD_self _ _ _
  · rw [if_neg h]
    exact setState_getD_other _ _ _ _ h

/-- The empty declaration list relates every state to itself. -/
theorem FieldRel.refl_nil (s : ResolveState) : FieldRel [] s s := by
  refine ⟨?_, ?_, ?_, ?_, ?_, ?_, ?_, ?_, ?_⟩
  · simp [nuIdx]
  · simp [nuIdx]
  · intro i; exact Iff.rfl
  · intro i; simp [nuIdx]
  · intro i; simp [uIdx]
  · intro i hi; simp [nuIdx] at hi
  · intro i hi; simp [uIdx] at hi
  · simp [nuIdx]
  · intro i hi; simp [nuIdx] at hi

/-- The simulation relation composes along concatenated declaration lists. -/
theorem FieldRel.trans {ds1 ds2 : List (BindingType × Nat)} {s t u : ResolveState}
    (h1 : FieldRel ds1 s t) (h2 : FieldRel ds2 t u) : FieldRel (ds1 ++ ds2) s u := by
  have hfree_td : ∀ i, getSt t i = .Free → getSt s i = .Free := by
    intro i hti
    refine free_of_not _ ?_ ?_ ?_
    · intro hocc
      have := (h1.occ_iff i).mpr (Or.inl hocc)
      rw [hti] at this
      simp [isOcc] at this
    · intro hcu
      have := (h1.cu_iff i).mpr hcu
      rw [hti] at this
      simp [isCU] at this
    · intro hm
      have := (h1.merge_iff i).mpr (Or.inl hm)
      rw [hti] at this
      simp [isMerge] at this
  refine ⟨?_, ?_, ?_, ?_, ?_, ?_, ?_, ?_, ?_⟩
  · rw [nuIdx_append, h2.entry_eq, h1.entry_eq, List.append_assoc]
  · rw [nuIdx_append, h2.layout_eq, h1.layout_eq, List.append_assoc]
  · intro i
    exact (h2.cu_iff i).trans (h1.cu_iff i)
  · intro i
    rw [nuIdx_append]
    constructor
    · intro h
      rcases (h2.occ_iff i).mp h with h | h
      · rcases (h1.occ_iff i).mp h with h | h
        · exact Or.inl h
        · exact Or.inr (by simp [h])
      · exact Or.inr (by simp [h])
    · intro h
      rcases h with h | h
      · exact (h2.occ_iff i).mpr (Or.inl ((h1.occ_iff i).mpr (Or.inl h)))
      · rw [List.mem_append] at h
        rcases h with h | h
        · exact (h2.occ_iff i).mpr (Or.inl ((h1.occ_iff i).mpr (Or.inr h)))
        · exact (h2.occ_iff i).mpr (Or.inr h)
  · intro i
    rw [uIdx_append]
    constructor
    · intro h
      rcases (h2.merge_iff i).mp h with h | h
      · rcases (h1.merge_iff i).mp h with h | h
        · exact Or.inl h
        · exact Or.inr (by simp [h])
      · exact Or.inr (by simp [h])
    · intro h
      rcases h with h | h
      · exact (h2.merge_iff i).mpr (Or.inl ((h1.merge_iff i).mpr (Or.inl h)))
      · rw [List.mem_append] at h
        rcases h with h | h
        · exact (h2.merge_iff i).mpr (Or.inl ((h1.merge_iff i).mpr (Or.inr h)))
        · exact (h2.merge_iff i).mpr (Or.inr h)
  · intro i hi
    rw [nuIdx_append, List.mem_append] at hi
    rcases hi with hi | hi
    · exact h1.nu_free i hi
    · exact hfree_td i (h2.nu_free i hi)
  · intro i hi
    rw [uIdx_append, List.mem_append] at hi
    rcases hi with hi | hi
    · exact h1.u_start i hi
    · rcases h2.u_start i hi with hfree | hm
      · exact Or.inl (hfree_td i hfree)
      · rcases (h1.merge_iff i).mp hm with hm1 | hu1
        · exact Or.inr hm1
        · exact h1.u_start i hu1
  · rw [nuIdx_append]
    refine List.Nodup.append h1.nu_nodup h2.nu_nodup ?_
    intro i hi1 hi2
    have hocc : isOcc (getSt t i) = true := (h1.occ_iff i).mpr (Or.inr hi1)
    have hfree : getSt t i = .Free := h2.nu_free i hi2
    rw [hfree] at hocc
    simp [isOcc] at hocc
  · intro i hi hu
    rw [nuIdx_append, List.mem_append] at hi
    rw [uIdx_append, List.mem_append] at hu
    rcases hi with hi | hi
    · rcases hu with hu | hu
      · exact h1.nu_not_u i hi hu
      · have hocc : isOcc (getSt t i) = true := (h1.occ_iff i).mpr (Or.inr hi)
        rcases h2.u_start i hu with hfree | hm
        · rw [hfree] at hocc
          simp [isOcc] at hocc
        · cases hst : getSt t i with
          | OccupiedMergableUniform fs => rw [hst] at hocc; simp [isOcc] at hocc
          | Free => rw [hst] at hocc; simp [isOcc] at hocc
          | Occupied bt id => rw [hst] at hm; simp [isMerge] at hm
          | OccupiedConvertedUniform => rw [hst] at hocc; simp [isOcc] at hocc
    · have hfree : getSt t i = .Free := h2.nu_free i hi
      rcases hu with hu | hu
      · have hm : isMerge (getSt t i) = true := (h1.merge_iff i).mpr (Or.inr hu)
        rw [h2.nu_free i hi] at hm
        simp [isMerge] at hm
      · exact h2.nu_not_u i hi hu

/-- A mergeable state is neither occupied nor converted. -/
theorem not_occ_cu_of_merge (st : BindingState) (h : isMerge st = true) :
    isOcc st = false ∧ isCU st = false := by
  cases st <;> simp_all [isMerge, isOcc, isCU]

/-- Reading any slot after a write into a known state. -/
theorem getSt_after_set (s t : ResolveState) (i : Nat) (stNew : BindingState)
    (hts : t.binding_states = setState s.binding_states i stNew) (j : Nat) :
    getSt t j = if j = i then stNew else getSt s j := by
  unfold getSt
  rw [hts]
  exact getSt_set s i stNew j

/-- The simulation relation for one uniform declaration: writing a mergeable
state into a slot that was free or mergeable, leaving the emission vectors
unchanged. -/
theorem FieldRel_single_uniform (s t : ResolveState) (i : Nat) (stNew : BindingState)
    (hnew : isMerge stNew = true)
    (hstart : getSt s i = .Free ∨ isMerge (getSt s i) = true)
    (hts : t.binding_states = setState s.binding_states i stNew)
    (hte : t.bind_group_entries = s.bind_group_entries)
    (htl : t.binding_layouts = s.binding_layouts) :
    FieldRel [(BindingType.Uniform, i)] s t := by
  have hnu : nuIdx [(BindingType.Uniform, i)] = [] := rfl
  have hu : uIdx [(BindingType.Uniform, i)] = [i] := rfl
  have hg := getSt_after_set s t i stNew hts
  have hstart_occ : isOcc (getSt s i) = false ∧ isCU (getSt s i) = false := by
    rcases hstart with h | h
    · rw [h]
      exact ⟨rfl, rfl⟩
    · exact not_occ_cu_of_merge _ h
  refine ⟨?_, ?_, ?_, ?_, ?_, ?_, ?_, ?_, ?_⟩
  · rw [hte, hnu, List.append_nil]
  · rw [htl, hnu, List.append_nil]
  · intro j
    rw [hg j]
    by_cases hj : j = i
    · subst hj
      rw [if_pos rfl, (not_occ_cu_of_merge stNew hnew).2, hstart_occ.2]
    · rw [if_neg hj]
  · intro j
    rw [hg j, hnu]
    by_cases hj : j = i
    · subst hj
      rw [if_pos rfl, (not_occ_cu_of_merge stNew hnew).1, hstart_occ.1]
      simp
    · rw [if_neg hj]
      simp
  · intro j
    rw [hg j, hu]
    by_cases hj : j = i
    · subst hj
      rw [if_pos rfl, hnew]
      simp
    · rw [if_neg hj]
      simp [hj]
  · intro j hj
    rw [hnu] at hj
    simp at hj
  · intro j hj
    rw [hu] at hj
    simp at hj
    subst hj
    exact hstart
  · rw [hnu]
    exact List.nodup_nil
  · intro j hj
    rw [hnu] at hj
    simp at hj

/-- The simulation relation for one non-uniform declaration: occupying a free
slot and appending one entry and one layout at its index. -/
theorem FieldRel_single_nonuniform (s t : ResolveState) (bt : BindingType) (i : Nat)
    (nmf : String) (lty : LayoutTy) (hbt : bt ≠ .Uniform)
    (hst : getSt s i = .Free)
    (hts : t.binding_states = setState s.binding_states i (.Occupied bt nmf))
    (hte : t.bind_group_entries = s.bind_group_entries ++
      [{ binding := i, binding_vec_index := s.bind_group_entries.length }])
    (htl : t.binding_layouts = s.binding_layouts ++ [{ binding := i, ty := lty }]) :
    FieldRel [(bt, i)] s t := by
  have hnu : nuIdx [(bt, i)] = [i] := by simp [nuIdx, hbt]
  have hu : uIdx [(bt, i)] = [] := by simp [uIdx, hbt]
  have hg := getSt_after_set s t i (.Occupied bt nmf) hts
  refine ⟨?_, ?_, ?_, ?_, ?_, ?_, ?_, ?_, ?_⟩
  · rw [hte, hnu]
    simp
  · rw [htl, hnu]
    simp
  · intro j
    rw [hg j]
    by_cases hj : j = i
    · subst hj
      rw [if_pos rfl, hst]
      simp [isCU]
    · rw [if_neg hj]
  · intro j
    rw [hg j, hnu]
    by_cases hj : j = i
    · subst hj
      rw [if_pos rfl, hst]
      simp [isOcc]
    · rw [if_neg hj]
      simp [hj]
  · intro j
    rw [hg j, hu]
    by_cases hj : j = i
    · subst hj
      rw [if_pos rfl, hst]
      simp [isMerge]
    · rw [if_neg hj]
      simp
  · intro j hj
    rw [hnu] at hj
    simp at hj
    subst hj
    exact hst
  · intro j hj
    rw [hu] at hj
    simp at hj
  · rw [hnu]
    exact List.nodup_singleton i
  · intro j hj
    rw [hu]
    simp

/-- One successful field-attribute step establishes the simulation relation
for its declarations. -/
theorem fieldAttr_rel (f : Field) (s : ResolveState) (a : FieldAttr) (t : ResolveState)
    (hok : processFieldAttr f s a = .ok t) : FieldRel (declOfAttr a) s t := by
  rcases processFieldAttr_cases f s a t hok with
    ⟨hd, ht⟩ | ⟨i, hd, hcase⟩ | ⟨bt, i, lty, hbt, hd, hst, ht⟩
  · rw [hd, ht]
    exact FieldRel.refl_nil s
  · rw [hd]
    rcases hcase with ⟨hst, ht⟩ | ⟨fs, hst, ht⟩
    · subst ht
      exact FieldRel_single_uniform s _ i (.OccupiedMergableUniform [f]) rfl
        (Or.inl hst) rfl rfl rfl
    · subst ht
      refine FieldRel_single_uniform s _ i (.OccupiedMergableUniform (fs ++ [f])) rfl
        (Or.inr ?_) rfl rfl rfl
      rw [hst]
      rfl
  · rw [hd]
    subst ht
    exact FieldRel_single_nonuniform s _ bt i f.name lty hbt hst rfl rfl rfl

/-- The attribute loop of one field establishes the simulation relation for
the field's declarations. -/
theorem fieldAttrs_rel (f : Field) : ∀ (attrs : List FieldAttr) (s t : ResolveState),
    processFieldAttrs f s attrs = .ok t →
    FieldRel ((attrs.map declOfAttr).flatten) s t := by
  intro attrs
  induction attrs with
  | nil =>
    intro s t hok
    cases hok
    exact FieldRel.refl_nil s
  | cons a rest ih =>
    intro s t hok
    unfold processFieldAttrs at hok
    cases ha : processFieldAttr f s a with
    | error e => rw [ha] at hok; exact absurd hok (by simp)
    | ok s1 =>
      rw [ha] at hok
      exact (fieldAttr_rel f s a s1 ha).trans (ih s1 t hok)

/-- The field loop establishes the simulation relation for all member
declarations in encounter order. -/
theorem fields_rel : ∀ (fields : List Field) (s t : ResolveState),
    processFields s fields = .ok t → FieldRel (declsOfFields fields) s t := by
  intro fields
  induction fields with
  | nil =>
    intro s t hok
    cases hok
    exact FieldRel.refl_nil s
  | cons f rest ih =>
    intro s t hok
    unfold processFields at hok
    cases hf : processFieldAttrs f s f.attrs with
    | error e => rw [hf] at hok; exact absurd hok (by simp)
    | ok s1 =>
      rw [hf] at hok
      exact (fieldAttrs_rel f f.attrs s s1 hf).trans (ih s1 t hok)

/-- Characterization of the struct-attribute pass: entry and layout indices
are extended exactly by the struct-level uniform indices in declaration
order, and a slot reads converted-uniform exactly when some struct-level
declaration targets it (later declarations overwrite earlier ones with the
same state). -/
theorem structAttrs_char : ∀ (attrs : List StructAttr) (s t : ResolveState),
    processStructAttrs s attrs = .ok t →
    t.bind_group_entries.map BindGroupEntry.binding =
      s.bind_group_entries.map BindGroupEntry.binding ++ structUniformIndices attrs ∧
    t.binding_layouts.map BindGroupLayoutEntry.binding =
      s.binding_layouts.map BindGroupLayoutEntry.binding ++ structUniformIndices attrs ∧
    ∀ i, getSt t i =
      if i ∈ structUniformIndices attrs then .OccupiedConvertedUniform else getSt s i := by
  intro attrs
  induction attrs with
  | nil =>
    intro s t hok
    cases hok
    refine ⟨by simp [structUniformIndices], by simp [structUniformIndices], fun i => ?_⟩
    simp [structUniformIndices]
  | cons a rest ih =>
    intro s t hok
    unfold processStructAttrs at hok
    cases ha : processStructAttr s a with
    | error e => rw [ha] at hok; exact absurd hok (by simp)
    | ok s1 =>
      rw [ha] at hok
      obtain ⟨he, hl, hsts⟩ := ih s1 t hok
      have hsplit : structUniformIndices (a :: rest) =
          structUniformIndices [a] ++ structUniformIndices rest :=
        filterMap_cons_append _ a rest
      rcases processStructAttr_cases s a s1 ha with
        ⟨hz, hbs, _, hbe, hbl⟩ | ⟨i, ty, hone, hrec⟩
      · rw [hsplit, hz]
        refine ⟨?_, ?_, ?_⟩
        · rw [he, hbe]
          simp
        · rw [hl, hbl]
          simp
        · intro j
          rw [hsts j]
          have hsame : getSt s1 j = getSt s j := by
            unfold getSt
            rw [hbs]
          rw [hsame]
          simp
      · rw [hsplit, hone]
        have hs1 : ∀ j, getSt s1 j =
            if j = i then .OccupiedConvertedUniform else getSt s j := by
          intro j
          rw [hrec]
          simp only [getSt]
          exact getSt_set s i _ j
        refine ⟨?_, ?_, ?_⟩
        · rw [he, hrec]
          simp
        · rw [hl, hrec]
          simp
        · intro j
          rw [hsts j, hs1 j]
          by_cases hj : j ∈ structUniformIndices rest
          · rw [if_pos hj, if_pos (by simp [hj])]
          · rw [if_neg hj]
            by_cases hji : j = i
            · subst hji
              rw [if_pos rfl, if_pos (by simp)]
            · rw [if_neg hji, if_neg (by simp [hj, hji])]

/-- The bind group entries of the second pass sit at the mergeable slot
indices. -/
theorem mergedEntriesFrom_map_binding : ∀ (sts : List BindingState) (base k : Nat),
    (mergedEntriesFrom base k sts).map BindGroupEntry.binding = mergedIdxFrom k sts := by
  intro sts
  induction sts with
  | nil => intro base k; rfl
  | cons st rest ih =>
    intro base k
    cases st <;> simp [mergedEntriesFrom, mergedIdxFrom, isMerge, ih]

/-- The layout entries of the second pass sit at the mergeable slot indices. -/
theorem mergedLayoutsFrom_map_binding (nm : String) : ∀ (sts : List BindingState) (k : Nat),
    (mergedLayoutsFrom nm k sts).map BindGroupLayoutEntry.binding = mergedIdxFrom k sts := by
  intro sts
  induction sts with
  | nil => intro k; rfl
  | cons st rest ih =>
    intro k
    cases st <;> simp [mergedLayoutsFrom, mergedIdxFrom, isMerge, ih, mergedSlotLayout]

/-- Every merged index is at least the scan start. -/
theorem mergedIdxFrom_le : ∀ (sts : List BindingState) (k x : Nat),
    x ∈ mergedIdxFrom k sts → k ≤ x := by
  intro sts
  induction sts with
  | nil => intro k x h; simp [mergedIdxFrom] at h
  | cons st rest ih =>
    intro k x h
    simp only [mergedIdxFrom, List.mem_append] at h
    rcases h with h | h
    · rcases (by split at h <;> simp_all : x = k) with rfl
      exact le_refl x
    · exact Nat.le_of_succ_le (ih (k + 1) x h)

/-- The merged indices are strictly ascending. -/
theorem mergedIdxFrom_pairwise : ∀ (sts : List BindingState) (k : Nat),
    (mergedIdxFrom k sts).Pairwise (· < ·) := by
  intro sts
  induction sts with
  | nil => intro k; simp [mergedIdxFrom]
  | cons st rest ih =>
    intro k
    simp only [mergedIdxFrom]
    split
    · refine List.Pairwise.cons ?_ (ih (k + 1))
      intro x hx
      exact Nat.lt_of_succ_le (mergedIdxFrom_le rest (k + 1) x hx)
    · simp only [List.nil_append]
      exact ih (k + 1)

/-- Membership in the merged indices is exactly mergeability of the slot. -/
theorem mergedIdxFrom_mem : ∀ (sts : List BindingState) (k x : Nat),
    x ∈ mergedIdxFrom k sts ↔ (k ≤ x ∧ isMerge (sts.getD (x - k) .Free) = true) := by
  intro sts
  induction sts with
  | nil =>
    intro k x
    simp [mergedIdxFrom, List.getD, isMerge]
  | cons st rest ih =>
    intro k x
    simp only [mergedIdxFrom, List.mem_append]
    by_cases hxk : x = k
    · subst hxk
      constructor
      · intro h
        rcases h with h | h
        · refine ⟨le_refl x, ?_⟩
          split at h <;> simp_all
        · exact absurd (mergedIdxFrom_le rest (x + 1) x h) (by omega)
      · intro ⟨_, hm⟩
        simp at hm
        left
        rw [if_pos hm]
        exact List.mem_singleton_self x
    · rw [ih (k + 1) x]
      constructor
      · intro h
        rcases h with h | ⟨hle, hm⟩
        · split at h <;> simp_all
        · refine ⟨by omega, ?_⟩
          have hsub : x - k = (x - (k + 1)) + 1 := by omega
          rw [hsub]
          simpa using hm
      · intro ⟨hle, hm⟩
        right
        have hgt : k + 1 ≤ x := by omega
        refine ⟨hgt, ?_⟩
        have hsub : x - k = (x - (k + 1)) + 1 := by omega
        rw [hsub] at hm
        simpa using hm

/-- C4: for every valid declaration set, the emitted bind-group-entry order is
all converted-uniform and non-uniform entries in declaration-encounter order,
followed by all merged-uniform entries in ascending slot-index order: the
entry binding indices are the encounter indices extended by a strictly
ascending tail whose members are exactly the uniform member indices. -/
theorem c4_entry_order (ast : DeriveInput) (out : Output)
    (hok : derive_as_bind_group ast = .ok out) :
    ∃ m, out.bind_group_entries.map BindGroupEntry.binding = encounterIndices ast ++ m ∧
      m.Pairwise (· < ·) ∧ (∀ x, x ∈ m ↔ x ∈ memberUniformIndices ast) := by
  obtain ⟨s, s2, fields, hs, hdata, hf, _, _, hentries, _⟩ := derive_ok_inversion ast out hok
  obtain ⟨hse, _, hsst⟩ := structAttrs_char ast.attrs initState s hs
  have hrel := fields_rel fields s s2 hf
  have hds : declsOf ast = declsOfFields fields := by
    unfold declsOf
    rw [hdata]
  refine ⟨mergedIdxFrom 0 s2.binding_states, ?_, mergedIdxFrom_pairwise _ 0, ?_⟩
  · rw [hentries, List.map_append, mergedEntriesFrom_map_binding, hrel.entry_eq, hse]
    unfold encounterIndices
    rw [hds]
    simp [initState]
  · intro x
    rw [mergedIdxFrom_mem s2.binding_states 0 x]
    have hgetd : s2.binding_states.getD (x - 0) .Free = getSt s2 x := by
      unfold getSt
      rw [Nat.sub_zero]
    rw [hgetd]
    have hmerge0 : isMerge (getSt s x) = false := by
      rw [hsst x]
      split
      · rfl
      · simp [getSt, initState, isMerge]
    constructor
    · intro ⟨_, hm⟩
      rcases (hrel.merge_iff x).mp hm with hm | hu
      · rw [hmerge0] at hm
        exact absurd hm (by simp)
      · unfold memberUniformIndices
        rw [hds]
        exact hu
    · intro hu
      refine ⟨Nat.zero_le x, ?_⟩
      refine (hrel.merge_iff x).mpr (Or.inr ?_)
      unfold memberUniformIndices at hu
      rw [hds] at hu
      exact hu

/-- Witness for C4: the spec's example yields exactly 3 entries in the order
texture(1), sampler(2), merged uniform(0), matching the theorem's shape. -/
theorem c4_witness :
    derive_as_bind_group exampleInput = .ok exampleOutput ∧
    exampleOutput.bind_group_entries.map BindGroupEntry.binding = [1, 2, 0] ∧
    (∃ m, exampleOutput.bind_group_entries.map BindGroupEntry.binding =
      encounterIndices exampleInput ++ m ∧ m.Pairwise (· < ·) ∧
      (∀ x, x ∈ m ↔ x ∈ memberUniformIndices exampleInput)) := by
  have hok : derive_as_bind_group exampleInput = .ok exampleOutput := by rfl
  exact ⟨hok, rfl, c4_entry_order exampleInput exampleOutput hok⟩

/-- C3 counterexample: a valid declaration set whose emitted layout entries
are not in ascending binding-index order — the layout entries follow
declaration-encounter order for non-uniform slots, so texture(2) before
sampler(1) emits layout indices [2, 1]. -/
theorem c3_counterexample :
    (derive_as_bind_group nonAscendInput).map
      (fun o => o.binding_layouts.map BindGroupLayoutEntry.binding) = .ok [2, 1] ∧
    ¬ List.Pairwise (· ≤ ·) ([2, 1] : List Nat) := by
  exact ⟨rfl, by decide⟩

/-- A member declaration index is a non-uniform index or a uniform index. -/
theorem mem_map_snd_iff (ds : List (BindingType × Nat)) (x : Nat) :
    x ∈ ds.map Prod.snd ↔ (x ∈ nuIdx ds ∨ x ∈ uIdx ds) := by
  induction ds with
  | nil => simp [nuIdx, uIdx]
  | cons d rest ih =>
    obtain ⟨bt, i⟩ := d
    by_cases hbt : bt = BindingType.Uniform
    · subst hbt
      have hnu : nuIdx ((BindingType.Uniform, i) :: rest) = nuIdx rest := by
        simp [nuIdx, List.filterMap_cons]
      have hu : uIdx ((BindingType.Uniform, i) :: rest) = i :: uIdx rest := by
        simp [uIdx, List.filterMap_cons]
      rw [List.map_cons, List.mem_cons, hnu, hu, List.mem_cons, ih]
      tauto
    · have hnu : nuIdx ((bt, i) :: rest) = i :: nuIdx rest := by
        simp [nuIdx, List.filterMap_cons, hbt]
      have hu : uIdx ((bt, i) :: rest) = uIdx rest := by
        simp [uIdx, List.filterMap_cons, hbt]
      rw [List.map_cons, List.mem_cons, hnu, hu, List.mem_cons, ih]
      tauto

/-- C3 amended: for every valid declaration set whose aggregate-level
declarations target pairwise distinct indices, the slot indices in the
emitted layout-entry list are exactly the set of distinct binding indices
declared, each appearing exactly once (the list is a permutation of the
deduplicated declared indices); the layout order, however, is not globally
ascending: it is the declaration-encounter order of converted-uniform and
non-uniform entries followed by the merged-uniform entries in ascending
slot-index order. -/
theorem c3_layout_indices (ast : DeriveInput) (out : Output)
    (hok : derive_as_bind_group ast = .ok out)
    (hnd : (structUniformIndices ast.attrs).Nodup) :
    (out.binding_layouts.map BindGroupLayoutEntry.binding).Perm (declaredIndices ast).dedup ∧
    ∃ m, out.binding_layouts.map BindGroupLayoutEntry.binding = encounterIndices ast ++ m ∧
      m.Pairwise (· < ·) ∧ (∀ x, x ∈ m ↔ x ∈ memberUniformIndices ast) := by
  obtain ⟨s, s2, fields, hs, hdata, hf, _, _, _, hlayouts⟩ := derive_ok_inversion ast out hok
  obtain ⟨_, hsl, hsst⟩ := structAttrs_char ast.attrs initState s hs
  have hrel := fields_rel fields s s2 hf
  have hds : declsOf ast = declsOfFields fields := by
    unfold declsOf
    rw [hdata]
  have hform : out.binding_layouts.map BindGroupLayoutEntry.binding =
      (structUniformIndices ast.attrs ++ nuIdx (declsOfFields fields)) ++
        mergedIdxFrom 0 s2.binding_states := by
    rw [hlayouts, List.map_append, mergedLayoutsFrom_map_binding, hrel.layout_eq, hsl]
    simp [initState]
  have hmerge0 : ∀ x, isMerge (getSt s x) = false := by
    intro x
    rw [hsst x]
    split
    · rfl
    · simp [getSt, initState, isMerge]
  have hmem_m : ∀ x, x ∈ mergedIdxFrom 0 s2.binding_states ↔
      x ∈ uIdx (declsOfFields fields) := by
    intro x
    rw [mergedIdxFrom_mem s2.binding_states 0 x]
    have hgetd : s2.binding_states.getD (x - 0) .Free = getSt s2 x := by
      unfold getSt
      rw [Nat.sub_zero]
    rw [hgetd]
    constructor
    · intro ⟨_, hm⟩
      rcases (hrel.merge_iff x).mp hm with hm | hu
      · rw [hmerge0 x] at hm
        exact absurd hm (by simp)
      · exact hu
    · intro hu
      exact ⟨Nat.zero_le x, (hrel.merge_iff x).mpr (Or.inr hu)⟩
  have hnu_SU : ∀ i ∈ nuIdx (declsOfFields fields), i ∉ structUniformIndices ast.attrs := by
    intro i hi hSU
    have hfree := hrel.nu_free i hi
    have hcu := hsst i
    rw [if_pos hSU] at hcu
    rw [hcu] at hfree
    exact BindingState.noConfusion hfree
  have hu_SU : ∀ i ∈ uIdx (declsOfFields fields), i ∉ structUniformIndices ast.attrs := by
    intro i hi hSU
    have hcu := hsst i
    rw [if_pos hSU] at hcu
    rcases hrel.u_start i hi with hfree | hm
    · rw [hcu] at hfree
      exact BindingState.noConfusion hfree
    · rw [hcu] at hm
      simp [isMerge] at hm
  have hnodup_m : (mergedIdxFrom 0 s2.binding_states).Nodup :=
    (mergedIdxFrom_pairwise s2.binding_states 0).imp (fun hlt => Nat.ne_of_lt hlt)
  have h1 : (structUniformIndices ast.attrs ++ nuIdx (declsOfFields fields)).Nodup := by
    refine hnd.append hrel.nu_nodup ?_
    intro a ha hnu
    exact hnu_SU a hnu ha
  have hwhole : ((structUniformIndices ast.attrs ++ nuIdx (declsOfFields fields)) ++
      mergedIdxFrom 0 s2.binding_states).Nodup := by
    refine h1.append hnodup_m ?_
    intro a ha hm
    have hau : a ∈ uIdx (declsOfFields fields) := (hmem_m a).mp hm
    rw [List.mem_append] at ha
    rcases ha with ha | ha
    · exact hu_SU a hau ha
    · exact hrel.nu_not_u a ha hau
  constructor
  · rw [hform]
    refine List.perm_of_nodup_nodup_toFinset_eq hwhole (List.nodup_dedup _) ?_
    ext a
    simp only [List.mem_toFinset, List.mem_dedup, List.mem_append]
    unfold declaredIndices
    rw [hds, List.mem_append, mem_map_snd_iff, hmem_m a]
    tauto
  · refine ⟨mergedIdxFrom 0 s2.binding_states, ?_,
      mergedIdxFrom_pairwise s2.binding_states 0, ?_⟩
    · rw [hform]
      unfold encounterIndices
      rw [hds]
    · intro x
      rw [hmem_m x]
      unfold memberUniformIndices
      rw [hds]

/-- Witness for C3 at the merged-uniform input: the layout indices are a
permutation of the deduplicated declared indices and follow the two-pass
order. -/
theorem c3_witness :
    (mergedUniformOutput.binding_layouts.map BindGroupLayoutEntry.binding).Perm
      (declaredIndices mergedUniformInput).dedup ∧
    (∃ m, mergedUniformOutput.binding_layouts.map BindGroupLayoutEntry.binding =
      encounterIndices mergedUniformInput ++ m ∧ m.Pairwise (· < ·) ∧
      (∀ x, x ∈ m ↔ x ∈ memberUniformIndices mergedUniformInput)) := by
  exact c3_layout_indices mergedUniformInput mergedUniformOutput (by rfl) (by decide)

end BindGroupDerive
